import Mathlib

/-!
Verification of the CSV schema-inference engine (`tap_s3_csv/conversion.py`).

Shallow embedding of the type-inference engine.  A cell of the sample batch is a
`Value`; a column is a `List Value`; the mutable dicts of the Python code are
association lists threaded explicitly.  Code that can raise a Python exception
is embedded in `Except String`.
-/

set_option maxRecDepth 4000

namespace Conversion

/-- A raw cell value of a sample batch.

* `str`    — a Python `str` cell;
* `vlist`  — a list-valued cell (produced by `csv.DictReader` when a data row
  has more fields than the header row);
* `pybool` — a Python `bool`;
* `pyint`  — a Python `int`;
* `nan`    — a missing cell (`NaN`, as produced by `pd.DataFrame` for a row
  that lacks the column's key). -/
inductive Value where
  | str (s : String)
  | vlist (xs : List String)
  | pybool (b : Bool)
  | pyint (n : Int)
  | nan
deriving DecidableEq, Repr

/-- JSON values, for the schema fragments built by `datatype_schema`.
Object key order is the Python dict insertion order. -/
inductive Json where
  | str (s : String)
  | nat (n : Nat)
  | jnull
  | arr (xs : List Json)
  | obj (kvs : List (String × Json))

/-- Python `dict` lookup (`d[k]` / `d.get(k)`), on an association list whose
entries are in insertion order. -/
def dictLookup (k : String) : List (String × α) → Option α
  | [] => Option.none
  | (k2, v) :: rest => if k2 = k then some v else dictLookup k rest

/-- Python `dict` assignment `d[k] = v`: overwrite in place if the key exists,
append otherwise. -/
def dictInsert (k : String) (v : α) : List (String × α) → List (String × α)
  | [] => [(k, v)]
  | (k2, v2) :: rest => if k2 = k then (k, v) :: rest else (k2, v2) :: dictInsert k v rest

/-- `isinstance(x, list)`. -/
def Value.isList : Value → Bool
  | .vlist _ => true
  | _ => false

/-- `pd.isna(x)` for a scalar cell. -/
def isna : Value → Bool
  | .nan => true
  | _ => false

/-- `str(x)` for a cell of an object column (`nan` prints as `nan`,
a list cell prints with single-quoted elements as in Python). -/
def strOfValue : Value → String
  | .str s => s
  | .vlist xs => "[" ++ String.intercalate ", " (xs.map (fun s => "\x27" ++ s ++ "\x27")) ++ "]"
  | .pybool b => if b then "True" else "False"
  | .pyint n => toString n
  | .nan => "nan"

/-- `column.isnull().all()`: every cell is missing (vacuously true for an
empty column). -/
def isnullAll (cells : List Value) : Bool := cells.all (· = Value.nan)

/-- `column.apply(lambda x: len(str(x))).max()` — the maximum string-rendered
length over all cells of the column (only used on non-empty columns). -/
def maxLen (cells : List Value) : Nat :=
  cells.foldl (fun acc v => max acc (strOfValue v).length) 0

/-- The pandas dtype name of a column built by `pd.DataFrame(samples)` from
Python values: all `bool` → `bool`; all `int` → `int64`; ints mixed with
missing cells (and all-missing columns) → `float64`; anything containing
strings, lists, or mixed kinds → `object`. -/
def dtypeName (cells : List Value) : String :=
  if !cells.isEmpty && cells.all (fun c => match c with | .pybool _ => true | _ => false) then
    "bool"
  else if !cells.isEmpty && cells.all (fun c => match c with | .pyint _ => true | _ => false) then
    "int64"
  else if !cells.isEmpty && cells.all (fun c => match c with | .pyint _ => true | .nan => true | _ => false) then
    "float64"
  else "object"

/-! ## Character-level models of the pandas parsers -/

/-- Leading run of decimal digits and the rest of the list. -/
def takeDigits (l : List Char) : List Char × List Char :=
  (l.takeWhile Char.isDigit, l.dropWhile Char.isDigit)

/-- Digits to a natural number (most significant first). -/
def digitsToNat (l : List Char) : Nat :=
  l.foldl (fun acc c => 10 * acc + (c.toNat - '0'.toNat)) 0

/-- Drop one leading `+`/`-` sign, if present. -/
def dropSign1 : List Char → List Char
  | [] => []
  | c :: r => if c = '+' ∨ c = '-' then r else c :: r

/-- Exponent tail of a numeric literal: optional sign then one or more
digits and nothing else. -/
def expTail (l : List Char) : Bool :=
  let l2 := dropSign1 l
  !l2.isEmpty && l2.all Char.isDigit

/-- Consume the unsigned mantissa (`digits`, `digits.`, `digits.digits` or
`.digits`); `Option.none` if there is no valid mantissa. -/
def mantRest (l : List Char) : Option (List Char) :=
  match takeDigits l with
  | (ds, c :: r2) =>
    if c = '.' then
      if ds.isEmpty && (takeDigits r2).1.isEmpty then Option.none else some (takeDigits r2).2
    else if ds.isEmpty then Option.none else some (c :: r2)
  | (ds, []) => if ds.isEmpty then Option.none else some []

/-- An unsigned numeric literal body: mantissa followed by an optional
exponent part. -/
def numCore (l : List Char) : Bool :=
  match mantRest l with
  | Option.none => false
  | some [] => true
  | some (c :: r) => if c = 'e' ∨ c = 'E' then expTail r else false

/-- Result of `pd.to_numeric` on one comma-stripped cell. -/
inductive NumParse where
  | missing
  | num
  | fail
deriving DecidableEq, Repr

/-- `pd.to_numeric` on one string cell: the empty string becomes `NaN`
(missing — see the comment in `infer_number`), a signed numeric literal
parses, anything else raises.  (Arbitrary-precision overflow of `int64`,
`inf`/`nan` literals and surrounding whitespace are not modelled; no claim
involves them.) -/
def toNumericCell (s : String) : NumParse :=
  if s = "" then .missing
  else if numCore (dropSign1 s.data) then .num
  else .fail

/-- `x.replace(',', '')` — only defined on `str`; any other cell raises
`AttributeError`, which is *not* inside the `try` of `infer_number`. -/
def commaStrip : Value → Except String String
  | .str s => .ok ⟨s.data.filter (· ≠ ',')⟩
  | .vlist _ => .error "AttributeError: list object has no attribute replace"
  | .pybool _ => .error "AttributeError: bool object has no attribute replace"
  | .pyint _ => .error "AttributeError: int object has no attribute replace"
  | .nan => .error "AttributeError: float object has no attribute replace"

/-- Number of days in a month (proleptic Gregorian). -/
def daysInMonth (y m : Nat) : Nat :=
  if m = 2 then
    if y % 4 = 0 ∧ (y % 100 ≠ 0 ∨ y % 400 = 0) then 29 else 28
  else if m = 4 ∨ m = 6 ∨ m = 9 ∨ m = 11 then 30
  else 31

/-- A calendar date acceptable to `pd.to_datetime` — valid month/day and a
year inside the `datetime64[ns]` range (1677-09-21 … 2262-04-11; we use the
interior years, which is all any claim needs). -/
def validDate (y m d : Nat) : Bool :=
  1678 ≤ y && y ≤ 2261 && 1 ≤ m && m ≤ 12 && 1 ≤ d && d ≤ daysInMonth y m

/-- `pd.to_datetime(column, format='%Y-%m-%d')` on one cell.  Because the
format is ISO-like, pandas takes its ISO fast path, which (as the source
comment notes) treats `-` and `/` interchangeably: four-digit year, then a
1–2 digit month and day, each preceded by `-` or `/`. -/
def parseISO (s : String) : Bool :=
  let p := takeDigits s.data
  match p.2 with
  | s1 :: r2 =>
    if s1 = '-' ∨ s1 = '/' then
      let q := takeDigits r2
      match q.2 with
      | s2 :: r4 =>
        if s2 = '-' ∨ s2 = '/' then
          let w := takeDigits r4
          decide (p.1.length = 4) && decide (1 ≤ q.1.length) && decide (q.1.length ≤ 2) &&
          decide (1 ≤ w.1.length) && decide (w.1.length ≤ 2) && w.2.isEmpty &&
          validDate (digitsToNat p.1) (digitsToNat q.1) (digitsToNat w.1)
        else false
      | [] => false
    else false
  | [] => false

/-- Strict `strptime`-style parse of one cell under a two-field-then-year
format (`%m<sep>%d<sep>%Y` when `dayFirst = false`, `%d<sep>%m<sep>%Y` when
`dayFirst = true`); the separator is literal, fields are 1–2 digits and the
year 1–4 digits (`%Y`). -/
def parseTwoFieldYear (dayFirst : Bool) (sep : Char) (s : String) : Bool :=
  let p := takeDigits s.data
  match p.2 with
  | s1 :: r2 =>
    if s1 = sep then
      let q := takeDigits r2
      match q.2 with
      | s2 :: r4 =>
        if s2 = sep then
          let w := takeDigits r4
          let mo := if dayFirst then digitsToNat q.1 else digitsToNat p.1
          let dy := if dayFirst then digitsToNat p.1 else digitsToNat q.1
          decide (1 ≤ p.1.length) && decide (p.1.length ≤ 2) &&
          decide (1 ≤ q.1.length) && decide (q.1.length ≤ 2) &&
          decide (1 ≤ w.1.length) && decide (w.1.length ≤ 4) && w.2.isEmpty &&
          validDate (digitsToNat w.1) mo dy
        else false
      | [] => false
    else false
  | [] => false

/-- Whether `re.sub('(?i)<null>', ...)` would match at the head of the list. -/
def startsNullMarker : List Char → Bool
  | a :: b :: c :: d :: e :: f :: _ =>
    a = '<' && (b = 'n' ∨ b = 'N') && (c = 'u' ∨ c = 'U') &&
    (d = 'l' ∨ d = 'L') && (e = 'l' ∨ e = 'L') && f = '>'
  | _ => false

/-- `re.sub('(?i)<null>', '', s)`: delete every case-insensitive `<null>`
(the marker is exactly six characters, so the skip is structural; the
default branch of the inner match is unreachable because a match of the
marker needs six characters). -/
def removeNull : List Char → List Char
  | [] => []
  | c :: rest =>
    if startsNullMarker (c :: rest) then
      match rest with
      | _ :: _ :: _ :: _ :: _ :: rest2 => removeNull rest2
      | _ => []
    else c :: removeNull rest

/-- `column.replace('(?i)<null>', '', regex=True)` on one cell — the regex
substitution only affects string cells. -/
def removeNullV : Value → Value
  | .str s => .str ⟨removeNull s.data⟩
  | v => v

/-- `column.replace('', np.nan)` on one cell. -/
def emptyToNan (v : Value) : Value :=
  if v = .str "" then .nan else v

/-- Python truthiness `bool(x)`, as used by `column[column.astype(bool)]`
(`bool(NaN)` is `True`). -/
def truthy : Value → Bool
  | .str s => s ≠ ""
  | .vlist xs => !xs.isEmpty
  | .pybool b => b
  | .pyint n => n ≠ 0
  | .nan => true

/-- `str.lower()`. -/
def pyLower (s : String) : String := ⟨s.data.map Char.toLower⟩

/-- The cells of a column as strings, if every cell is a string. -/
def strCells : List Value → Option (List String)
  | [] => some []
  | .str s :: rest => (strCells rest).map (s :: ·)
  | _ => Option.none

/-- Lexicographic comparison of code-point sequences, as Python compares
strings. -/
def charsLt : List Char → List Char → Bool
  | [], [] => false
  | [], _ :: _ => true
  | _ :: _, [] => false
  | a :: as, b :: bs => if a.val < b.val then true else if b.val < a.val then false else charsLt as bs

/-- `column.min()` — lexicographically smallest string (`Option.none` on an
empty column, where the real `min` yields `NaN` and every later use of it
raises). -/
def listMin : List String → Option String
  | [] => Option.none
  | s :: rest =>
    match listMin rest with
    | Option.none => some s
    | some m => some (if charsLt m.data s.data then m else s)

/-- Helper for `uniqueList`: `acc` is the set of values already seen. -/
def uniqueAux : List Value → List Value → List Value
  | [], _ => []
  | v :: rest, acc => if v ∈ acc then uniqueAux rest acc else v :: uniqueAux rest (v :: acc)

/-- `column.unique()` — distinct values in order of first appearance. -/
def uniqueList (l : List Value) : List Value := uniqueAux l []

/-! ## The inference engine (`conversion.py`) -/

/-- `infer_number(column)`.  The comma-stripping `apply` runs *outside* the
`try`, so a non-string cell raises an `AttributeError` that escapes the
function (`Except.error`).  Inside the `try`, `pd.to_numeric` either raises
(caught → `False`), or parses; blank cells parse to `NaN`, and an all-`NaN`
result (`tmpResult.dropna().empty`) yields `False`.  When parsing succeeds
with a non-empty result its dtype is `int64`/`float64`, so the final dtype
test yields `True`.  The cell-by-cell `apply` is `stripColumn`: the first
failing cell's exception propagates. -/
def stripColumn : List Value → Except String (List String)
  | [] => .ok []
  | v :: rest =>
    match commaStrip v with
    | .error e => .error e
    | .ok s =>
      match stripColumn rest with
      | .error e => .error e
      | .ok ss => .ok (s :: ss)

/-- `infer_number(column)` proper. -/
def infer_number (cells : List Value) : Except String Bool :=
  match stripColumn cells with
  | .error e => .error e
  | .ok stripped =>
    if (stripped.map toNumericCell).any (· = NumParse.fail) then .ok false
    else if (stripped.map toNumericCell).all (· = NumParse.missing) then .ok false
    else .ok true

/-- The label-recording fallthrough branches 2–5 of
`infer_datetime_and_format`: each strict format in order records its label on
success but returns `False` (not a confirmed date-time column). -/
def dtfmRest (name : String) (ss : List String) (dfm : List (String × String)) :
    Bool × List (String × String) :=
  if ss.all (parseTwoFieldYear false '-') then (false, dictInsert name "MM-DD-YYYY" dfm)
  else if ss.all (parseTwoFieldYear true '-') then (false, dictInsert name "DD-MM-YYYY" dfm)
  else if ss.all (parseTwoFieldYear false '/') then (false, dictInsert name "MM/DD/YYYY" dfm)
  else if ss.all (parseTwoFieldYear true '/') then (false, dictInsert name "DD/MM/YYYY" dfm)
  else (false, dfm)

/-- `infer_datetime_and_format(column, dateFormatMap)`.  Blank/falsy rows are
filtered first.  Branch 1 (`%Y-%m-%d`, the pandas ISO path) picks
`column.min()` as representative cell, and on success records `YYYY/MM/DD`
or `YYYY-MM-DD` according to whether the representative contains `/`; it is
the only branch returning `True`.  On an empty filtered column `min()`
yields `NaN`, so branch 1 fails at `'/' in cell` and branch 2 vacuously
succeeds.  A column reaching this function through `infer_column` consists
of strings only (any other cell already raised in `infer_number`); on
non-string cells every `pd.to_datetime` branch raises and is caught, so the
result is `(False, dfm)`. -/
def infer_datetime_and_format (name : String) (cells : List Value)
    (dfm : List (String × String)) : Bool × List (String × String) :=
  match strCells (cells.filter truthy) with
  | Option.none => (false, dfm)
  | some ss =>
    match listMin ss with
    | some m =>
      if ss.all parseISO then
        (true, dictInsert name (if m.data.contains '/' then "YYYY/MM/DD" else "YYYY-MM-DD") dfm)
      else dtfmRest name ss dfm
    | Option.none => dtfmRest name ss dfm

/-- `infer_datetime(column, dateFormatMap)`: normalise `<NULL>` markers to
empty strings, treat empty strings as missing and drop them; an empty
remainder is not a date column, otherwise defer to the format resolver. -/
def infer_datetime (name : String) (cells : List Value)
    (dfm : List (String × String)) : Bool × List (String × String) :=
  if ((cells.map (fun v => emptyToNan (removeNullV v))).filter (· ≠ Value.nan)).isEmpty then
    (false, dfm)
  else
    infer_datetime_and_format name
      ((cells.map (fun v => emptyToNan (removeNullV v))).filter (· ≠ Value.nan)) dfm

/-- `is_boolean_value(value)`: case-insensitive `"true"`/`"false"` strings,
or an actual boolean. -/
def is_boolean_value : Value → Bool
  | .str s => pyLower s = "true" || pyLower s = "false"
  | .pybool _ => true
  | _ => false

/-- `infer_boolean(column)`: empty strings become missing; no distinct value,
or a single distinct missing value, is not boolean; otherwise every distinct
value must be boolean-like or missing.  (`pd.isna` on a multi-element list
cell would raise in the real loop; list cells never reach this check through
`infer_column`.) -/
def infer_boolean (cells : List Value) : Bool :=
  let c2 := cells.map emptyToNan
  let u := uniqueList c2
  match u with
  | [] => false
  | v :: rest =>
    if rest.isEmpty && isna v then false
    else u.all (fun x => is_boolean_value x || isna x)

/-- `infer_column(column, dateFormatMap, lengths)`.  Returns the inferred
type tag (`Option.none` models the Python `None` that falls off the end for
dtypes such as `bool` or `float64`) together with the updated maps, or the
uncaught exception escaping from `infer_number`. -/
def infer_column (name : String) (cells : List Value)
    (dfm : List (String × String)) (lengths : List (String × Nat)) :
    Except String (Option String × List (String × String) × List (String × Nat)) :=
  if isnullAll cells then
    .ok (some "string", dfm, dictInsert name 0 lengths)
  else
    let lengths2 := dictInsert name (maxLen cells) lengths
    if dtypeName cells = "object" then
      if cells.any Value.isList then .ok (some "list", dfm, lengths2)
      else
        match infer_number cells with
        | .error e => .error e
        | .ok true => .ok (some "number", dfm, lengths2)
        | .ok false =>
          match infer_datetime name cells dfm with
          | (true, dfm2) => .ok (some "date-time", dfm2, lengths2)
          | (false, dfm2) =>
            if infer_boolean cells then .ok (some "boolean", dfm2, lengths2)
            else .ok (some "string", dfm2, lengths2)
    else if dtypeName cells = "int32" ∨ dtypeName cells = "int64" ∨ dtypeName cells = "float32" then
      .ok (some "number", dfm, lengths2)
    else
      .ok (Option.none, dfm, lengths2)

/-- `datatype_schema(datatype, length, string_max_length)`.  The `datatype`
is the tag returned by `infer_column` (`Option.none` for Python `None`); a
`None` entry inside the `type` array renders as JSON `null`. -/
def typeEntry : Option String → Json
  | some s => Json.str s
  | Option.none => Json.jnull

/-- `datatype_schema`: schema fragment for one column. -/
def datatype_schema (datatype : Option String) (length : Nat) (string_max_length : Bool) : Json :=
  if datatype = some "date-time" then
    Json.obj ([("type", Json.arr [Json.str "null", Json.str "string"]), ("format", Json.str "date-time")] ++
      (if string_max_length then [("maxLength", Json.nat length)] else []))
  else if datatype = some "dict" then
    Json.obj [("anyOf", Json.arr
      [Json.obj [("type", Json.str "object"), ("properties", Json.obj [])],
       Json.obj ([("type", Json.arr [Json.str "null", Json.str "string"])] ++
         (if string_max_length then [("maxLength", Json.nat length)] else []))])]
  else
    let types := [Json.str "null", typeEntry datatype] ++
      (if datatype ≠ some "string" then [Json.str "string"] else [])
    Json.obj ([("type", Json.arr types)] ++
      (if string_max_length then [("maxLength", Json.nat length)] else []))

/-! ## `generate_schema` -/

/-- One sample row: the string-keyed record produced by `csv.DictReader`
(or a JSONL record).  Keys within one row are distinct (Python dict). -/
abbrev Row := List (String × Value)

/-- Lookup of a key in one row. -/
def rowLookup (k : String) : Row → Option Value
  | [] => Option.none
  | (k2, v) :: rest => if k2 = k then some v else rowLookup k rest

/-- Deduplicate a list of names keeping first occurrences. -/
def dedupNames : List String → List String
  | [] => []
  | n :: rest => if n ∈ rest then dedupNames rest else n :: dedupNames rest

/-- `pd.DataFrame(samples).columns`: the union of the rows' keys.  (Pandas
keeps first-appearance order; we keep last occurrences, which yields the
same set — only membership and distinctness matter to any claim.) -/
def columnNames (samples : List Row) : List String :=
  dedupNames (samples.foldr (fun row acc => row.map Prod.fst ++ acc) [])

/-- `df[col_name]`: the column of one name — a missing key yields `NaN`. -/
def getColumn (samples : List Row) (name : String) : List Value :=
  samples.map (fun row => (rowLookup name row).getD Value.nan)

/-- The per-column loop of `generate_schema`: run `infer_column` on each
column in order, accumulating the `col_types` dict and threading the two
maps; an exception aborts the whole call. -/
def processColumns (samples : List Row) :
    List String → List (String × Option String) → List (String × String) →
    List (String × Nat) →
    Except String (List (String × Option String) × List (String × String) × List (String × Nat))
  | [], ct, dfm, lengths => .ok (ct, dfm, lengths)
  | n :: rest, ct, dfm, lengths =>
    match infer_column n (getColumn samples n) dfm lengths with
    | .error e => .error e
    | .ok (t, dfm2, lengths2) => processColumns samples rest (ct ++ [(n, t)]) dfm2 lengths2

/-- The schema-building loop of `generate_schema`: emit a fragment for every
column whose datatype is not `list`, in column order.  (`col_types` keys are
distinct, so consing in order is the Python dict built by insertion.) -/
def buildSchema (colTypes : List (String × Option String)) (lengths : List (String × Nat))
    (string_max_length : Bool) : List (String × Json) :=
  match colTypes with
  | [] => []
  | (n, dt) :: rest =>
    if dt = some "list" then buildSchema rest lengths string_max_length
    else (n, datatype_schema dt ((dictLookup n lengths).getD 0) string_max_length) ::
      buildSchema rest lengths string_max_length

/-- `generate_schema(samples, table_spec, string_max_length)` — `table_spec`
is unused by the source body.  Returns the `(schema, date_format_map)` pair,
or the uncaught exception. -/
def generate_schema (samples : List Row) (string_max_length : Bool) :
    Except String (List (String × Json) × List (String × String)) :=
  match processColumns samples (columnNames samples) [] [] [] with
  | .error e => .error e
  | .ok (ct, dfm, lengths) => .ok (buildSchema ct lengths string_max_length, dfm)

/-! ## Dictionary lemmas -/

theorem dictLookup_dictInsert (k k2 : String) (v : α) (d : List (String × α)) :
    dictLookup k (dictInsert k2 v d) = if k2 = k then some v else dictLookup k d := by
  induction d with
  | nil => simp [dictInsert, dictLookup]
  | cons hd tl ih =>
    obtain ⟨k3, v3⟩ := hd
    by_cases h3 : k3 = k2
    · subst h3
      by_cases hk : k3 = k <;> simp [dictInsert, dictLookup, hk]
    · by_cases hk : k3 = k
      · subst hk
        have hne : k2 ≠ k3 := fun h => h3 h.symm
        simp [dictInsert, dictLookup, h3, ih, hne]
      · simp [dictInsert, dictLookup, h3, hk, ih]

theorem dictLookup_append (k : String) (a b : List (String × α)) :
    dictLookup k (a ++ b) =
      match dictLookup k a with
      | some v => some v
      | Option.none => dictLookup k b := by
  induction a with
  | nil => simp [dictLookup]
  | cons hd tl ih =>
    obtain ⟨k2, v2⟩ := hd
    by_cases h : k2 = k <;> simp [dictLookup, h, ih]

/-- The optional date-format-map update performed by one column's inference:
either no entry, or one entry under that column's name. -/
def applyUpd (name : String) (o : Option String) (dfm : List (String × String)) :
    List (String × String) :=
  match o with
  | some lbl => dictInsert name lbl dfm
  | Option.none => dfm

theorem dictLookup_applyUpd_ne (k name : String) (o : Option String)
    (dfm : List (String × String)) (h : name ≠ k) :
    dictLookup k (applyUpd name o dfm) = dictLookup k dfm := by
  cases o with
  | none => rfl
  | some lbl => simp [applyUpd, dictLookup_dictInsert, h]

theorem dictLookup_applyUpd_self (name : String) (o : Option String)
    (dfm : List (String × String)) (h : dictLookup name dfm = Option.none) :
    dictLookup name (applyUpd name o dfm) = o := by
  cases o with
  | none => exact h
  | some lbl => simp [applyUpd, dictLookup_dictInsert]

/-! ## State independence of the per-column inference

The two maps are write-only inside one column's inference: the returned
boolean/type never depends on the incoming map contents, and the map update
is at most one entry under the column's own name. -/

theorem dtfmRest_spec (name : String) (ss : List String) :
    ∃ o : Option String, ∀ dfm, dtfmRest name ss dfm = (false, applyUpd name o dfm) := by
  by_cases h1 : ss.all (parseTwoFieldYear false '-')
  · exact ⟨some "MM-DD-YYYY", fun dfm => by simp [dtfmRest, h1, applyUpd]⟩
  · by_cases h2 : ss.all (parseTwoFieldYear true '-')
    · exact ⟨some "DD-MM-YYYY", fun dfm => by simp [dtfmRest, h1, h2, applyUpd]⟩
    · by_cases h3 : ss.all (parseTwoFieldYear false '/')
      · exact ⟨some "MM/DD/YYYY", fun dfm => by simp [dtfmRest, h1, h2, h3, applyUpd]⟩
      · by_cases h4 : ss.all (parseTwoFieldYear true '/')
        · exact ⟨some "DD/MM/YYYY", fun dfm => by simp [dtfmRest, h1, h2, h3, h4, applyUpd]⟩
        · exact ⟨Option.none, fun dfm => by simp [dtfmRest, h1, h2, h3, h4, applyUpd]⟩

theorem dtfm_spec (name : String) (cells : List Value) :
    ∃ (b : Bool) (o : Option String), (b = true → ∃ l, o = some l) ∧
      ∀ dfm, infer_datetime_and_format name cells dfm = (b, applyUpd name o dfm) := by
  rcases hsc : strCells (cells.filter truthy) with _ | ss
  · exact ⟨false, Option.none, by simp, fun dfm => by
      simp only [infer_datetime_and_format, hsc]; rfl⟩
  · rcases hmin : listMin ss with _ | m
    · obtain ⟨o, ho⟩ := dtfmRest_spec name ss
      exact ⟨false, o, by simp, fun dfm => by
        simp only [infer_datetime_and_format, hsc, hmin]; exact ho dfm⟩
    · by_cases hiso : ss.all parseISO = true
      · exact ⟨true, some (if m.data.contains '/' then "YYYY/MM/DD" else "YYYY-MM-DD"),
          fun _ => ⟨_, rfl⟩, fun dfm => by
            simp only [infer_datetime_and_format, hsc, hmin, hiso, if_true]; rfl⟩
      · obtain ⟨o, ho⟩ := dtfmRest_spec name ss
        exact ⟨false, o, by simp, fun dfm => by
          simp only [infer_datetime_and_format, hsc, hmin, if_neg hiso]; exact ho dfm⟩

theorem infer_datetime_spec (name : String) (cells : List Value) :
    ∃ (b : Bool) (o : Option String), (b = true → ∃ l, o = some l) ∧
      ∀ dfm, infer_datetime name cells dfm = (b, applyUpd name o dfm) := by
  by_cases he : ((cells.map (fun v => emptyToNan (removeNullV v))).filter
      (· ≠ Value.nan)).isEmpty = true
  · exact ⟨false, Option.none, by simp, fun dfm => by
      unfold infer_datetime; rw [if_pos he]; rfl⟩
  · obtain ⟨b, o, hbo, h⟩ := dtfm_spec name
      ((cells.map (fun v => emptyToNan (removeNullV v))).filter (· ≠ Value.nan))
    exact ⟨b, o, hbo, fun dfm => by unfold infer_datetime; rw [if_neg he]; exact h dfm⟩

/-- One column's inference, abstracted over the incoming maps: either it
raises (the same exception whatever the maps), or it yields a fixed type
tag, records at most one date-format entry under its own name, and records
exactly one length entry under its own name. -/
theorem infer_column_spec (name : String) (cells : List Value) :
    (∃ e, ∀ dfm lens, infer_column name cells dfm lens = .error e) ∨
    (∃ (t : Option String) (o : Option String) (L : Nat),
      (t = some "date-time" → ∃ l, o = some l) ∧
      (t = some "list" → o = Option.none) ∧
      ∀ dfm lens, infer_column name cells dfm lens =
        .ok (t, applyUpd name o dfm, dictInsert name L lens)) := by
  have happly : ∀ dfm, dfm = applyUpd name Option.none dfm := fun _ => rfl
  cases hnull : isnullAll cells with
  | true =>
    right
    exact ⟨some "string", Option.none, 0, by simp, by simp, fun dfm lens => by
      simp only [infer_column, hnull, if_true]; rfl⟩
  | false =>
    by_cases hobj : dtypeName cells = "object"
    · cases hlist : cells.any Value.isList with
      | true =>
        right
        exact ⟨some "list", Option.none, maxLen cells, by simp, by simp, fun dfm lens => by
          simp only [infer_column, hnull, hobj, hlist, if_true]
          simp [← happly]⟩
      | false =>
        rcases hnum : infer_number cells with e | b
        · left
          exact ⟨e, fun dfm lens => by
            simp only [infer_column, hnull, hobj, hlist, hnum]
            simp⟩
        · cases b with
          | true =>
            right
            exact ⟨some "number", Option.none, maxLen cells, by simp, by simp, fun dfm lens => by
              simp only [infer_column, hnull, hobj, hlist, hnum]
              simp [← happly]⟩
          | false =>
            obtain ⟨b2, o, hbo, hdt⟩ := infer_datetime_spec name cells
            cases b2 with
            | true =>
              right
              obtain ⟨l, hl⟩ := hbo rfl
              refine ⟨some "date-time", o, maxLen cells, fun _ => ⟨l, hl⟩, by simp, fun dfm lens => ?_⟩
              simp only [infer_column, hnull, hobj, hlist, hnum, hdt dfm]
              simp
            | false =>
              cases hbool : infer_boolean cells with
              | true =>
                right
                refine ⟨some "boolean", o, maxLen cells, by simp, by simp, fun dfm lens => ?_⟩
                simp only [infer_column, hnull, hobj, hlist, hnum, hdt dfm, hbool]
                simp
              | false =>
                right
                refine ⟨some "string", o, maxLen cells, by simp, by simp, fun dfm lens => ?_⟩
                simp only [infer_column, hnull, hobj, hlist, hnum, hdt dfm, hbool]
                simp
    · by_cases hint : dtypeName cells = "int32" ∨ dtypeName cells = "int64" ∨ dtypeName cells = "float32"
      · right
        exact ⟨some "number", Option.none, maxLen cells, by simp, by simp, fun dfm lens => by
          simp only [infer_column, hnull, if_neg hobj, if_pos hint]
          simp [← happly]⟩
      · right
        exact ⟨Option.none, Option.none, maxLen cells, by simp, by simp, fun dfm lens => by
          simp only [infer_column, hnull, if_neg hobj, if_neg hint]
          simp [← happly]⟩

/-! ## The per-column loop of `generate_schema` -/

theorem processColumns_preserve (samples : List Row) (names : List String) :
    ∀ ct0 dfm0 lens0 ct dfm lens,
      processColumns samples names ct0 dfm0 lens0 = .ok (ct, dfm, lens) →
      ∀ n, n ∉ names →
        dictLookup n ct = dictLookup n ct0 ∧ dictLookup n dfm = dictLookup n dfm0 ∧
        dictLookup n lens = dictLookup n lens0 := by
  induction names with
  | nil =>
    intro ct0 dfm0 lens0 ct dfm lens h n _
    simp only [processColumns] at h
    obtain ⟨h1, h2, h3⟩ := by simpa using h
    subst h1; subst h2; subst h3; exact ⟨rfl, rfl, rfl⟩
  | cons hd tl ih =>
    intro ct0 dfm0 lens0 ct dfm lens h n hn
    simp only [processColumns] at h
    rcases hic : infer_column hd (getColumn samples hd) dfm0 lens0 with e | r
    · rw [hic] at h; exact absurd h (by simp)
    · obtain ⟨t, dfm2, lens2⟩ := r
      rw [hic] at h
      have hn1 : n ≠ hd := fun he => hn (he ▸ List.mem_cons_self hd tl)
      have hn2 : n ∉ tl := fun hm => hn (List.mem_cons_of_mem hd hm)
      obtain ⟨hct, hdfm, hlen⟩ := ih _ _ _ _ _ _ h n hn2
      rcases infer_column_spec hd (getColumn samples hd) with ⟨e, he⟩ | ⟨t2, o, L, _, _, heq⟩
      · rw [he dfm0 lens0] at hic; exact absurd hic (by simp)
      · rw [heq dfm0 lens0] at hic
        have hdfm2 : dfm2 = applyUpd hd o dfm0 := by
          injection hic with h4
          injection h4 with _ h5
          injection h5 with h6 _
          exact h6.symm
        have hlens2 : lens2 = dictInsert hd L lens0 := by
          injection hic with h4
          injection h4 with _ h5
          injection h5 with _ h6
          exact h6.symm
        refine ⟨?_, ?_, ?_⟩
        · rw [hct, dictLookup_append]
          have hdn : hd ≠ n := fun h2 => hn1 h2.symm
          have : dictLookup n [(hd, t)] = Option.none := by simp [dictLookup, hdn]
          cases hl : dictLookup n ct0 <;> simp [hl, this]
        · rw [hdfm, hdfm2]
          exact dictLookup_applyUpd_ne n hd o dfm0 (fun h2 => hn1 h2.symm)
        · rw [hlen, hlens2, dictLookup_dictInsert]
          rw [if_neg (fun h2 => hn1 h2.symm)]

theorem processColumns_spec (samples : List Row) (names : List String) :
    ∀ ct0 dfm0 lens0 ct dfm lens name,
      processColumns samples names ct0 dfm0 lens0 = .ok (ct, dfm, lens) →
      names.Nodup → name ∈ names →
      dictLookup name ct0 = Option.none → dictLookup name dfm0 = Option.none →
      ∃ (t : Option String) (o : Option String) (L : Nat),
        (t = some "date-time" → ∃ l, o = some l) ∧
        (t = some "list" → o = Option.none) ∧
        (∀ dfmb lensb, infer_column name (getColumn samples name) dfmb lensb =
          .ok (t, applyUpd name o dfmb, dictInsert name L lensb)) ∧
        dictLookup name ct = some t ∧
        dictLookup name dfm = o ∧
        dictLookup name lens = some L := by
  induction names with
  | nil => intro _ _ _ _ _ _ _ _ _ hmem; exact absurd hmem (by simp)
  | cons hd tl ih =>
    intro ct0 dfm0 lens0 ct dfm lens name h hnd hmem hct0 hdfm0
    simp only [processColumns] at h
    rcases hic : infer_column hd (getColumn samples hd) dfm0 lens0 with e | r
    · rw [hic] at h; exact absurd h (by simp)
    · obtain ⟨t, dfm2, lens2⟩ := r
      rw [hic] at h
      rcases infer_column_spec hd (getColumn samples hd) with ⟨e, he⟩ | ⟨t2, o, L, hdt, hlist, heq⟩
      · rw [he dfm0 lens0] at hic; exact absurd hic (by simp)
      · rw [heq dfm0 lens0] at hic
        have ht2 : t = t2 := by
          injection hic with h4; injection h4 with h5 _; exact h5.symm
        have hdfm2 : dfm2 = applyUpd hd o dfm0 := by
          injection hic with h4; injection h4 with _ h5
          injection h5 with h6 _; exact h6.symm
        have hlens2 : lens2 = dictInsert hd L lens0 := by
          injection hic with h4; injection h4 with _ h5
          injection h5 with _ h6; exact h6.symm
        rcases List.mem_cons.mp hmem with hnamehd | hnametl
        · subst hnamehd
          have hntl : name ∉ tl := (List.nodup_cons.mp hnd).1
          obtain ⟨hctp, hdfmp, hlenp⟩ := processColumns_preserve samples tl _ _ _ _ _ _ h name hntl
          subst ht2
          refine ⟨t, o, L, hdt, hlist, heq, ?_, ?_, ?_⟩
          · rw [hctp, dictLookup_append, hct0]
            simp [dictLookup]
          · rw [hdfmp, hdfm2]
            exact dictLookup_applyUpd_self name o dfm0 hdfm0
          · rw [hlenp, hlens2, dictLookup_dictInsert, if_pos rfl]
        · have hhdname : hd ≠ name := fun he2 => (List.nodup_cons.mp hnd).1 (he2 ▸ hnametl)
          refine ih _ _ _ _ _ _ name h (List.nodup_cons.mp hnd).2 hnametl ?_ ?_
          · rw [dictLookup_append, hct0]
            simp [dictLookup, hhdname]
          · rw [hdfm2, dictLookup_applyUpd_ne name hd o dfm0 (fun h2 => hhdname h2)]
            exact hdfm0

theorem processColumns_keys (samples : List Row) (names : List String) :
    ∀ ct0 dfm0 lens0 ct dfm lens,
      processColumns samples names ct0 dfm0 lens0 = .ok (ct, dfm, lens) →
      ct.map Prod.fst = ct0.map Prod.fst ++ names := by
  induction names with
  | nil =>
    intro ct0 dfm0 lens0 ct dfm lens h
    simp only [processColumns] at h
    obtain ⟨h1, _, _⟩ := by simpa using h
    subst h1; simp
  | cons hd tl ih =>
    intro ct0 dfm0 lens0 ct dfm lens h
    simp only [processColumns] at h
    rcases hic : infer_column hd (getColumn samples hd) dfm0 lens0 with e | r
    · rw [hic] at h; exact absurd h (by simp)
    · obtain ⟨t, dfm2, lens2⟩ := r
      rw [hic] at h
      have := ih _ _ _ _ _ _ h
      simp at this
      simp [this]

/-! ## The schema-building loop -/

theorem buildSchema_lookup_notmem (name : String) (lengths : List (String × Nat)) (flag : Bool) :
    ∀ ct : List (String × Option String), name ∉ ct.map Prod.fst →
      dictLookup name (buildSchema ct lengths flag) = Option.none := by
  intro ct
  induction ct with
  | nil => intro _; rfl
  | cons hd tl ih =>
    obtain ⟨n, dt⟩ := hd
    intro hmem
    have hn : n ≠ name := fun he => hmem (by simp [he])
    have htl : name ∉ tl.map Prod.fst := fun hm => hmem (by simp [hm])
    by_cases hdt : dt = some "list"
    · simp only [buildSchema, hdt, if_true]
      exact ih htl
    · simp only [buildSchema, if_neg hdt, dictLookup, hn, if_false]
      exact ih htl

theorem buildSchema_lookup (name : String) (lengths : List (String × Nat)) (flag : Bool) :
    ∀ (ct : List (String × Option String)) (dt : Option String),
      (ct.map Prod.fst).Nodup → dictLookup name ct = some dt →
      dictLookup name (buildSchema ct lengths flag) =
        if dt = some "list" then Option.none
        else some (datatype_schema dt ((dictLookup name lengths).getD 0) flag) := by
  intro ct
  induction ct with
  | nil => intro dt _ h; exact absurd h (by simp [dictLookup])
  | cons hd tl ih =>
    obtain ⟨n, dt0⟩ := hd
    intro dt hnd hl
    by_cases hn : n = name
    · subst hn
      have hdt0 : dt0 = dt := by simpa [dictLookup] using hl
      subst hdt0
      have hnd1 : (n :: tl.map Prod.fst).Nodup := by simpa using hnd
      have hntl : n ∉ tl.map Prod.fst := (List.nodup_cons.mp hnd1).1
      by_cases hlist : dt0 = some "list"
      · simp only [buildSchema, hlist, if_true]
        rw [buildSchema_lookup_notmem n lengths flag tl hntl]
      · simp only [buildSchema, if_neg hlist, dictLookup, if_pos rfl]
        simp [hlist]
    · have hl2 : dictLookup name tl = some dt := by simpa [dictLookup, hn] using hl
      have hnd1 : (n :: tl.map Prod.fst).Nodup := by simpa using hnd
      have hnd2 : (tl.map Prod.fst).Nodup := (List.nodup_cons.mp hnd1).2
      by_cases hlist : dt0 = some "list"
      · simp only [buildSchema, hlist, if_true]
        exact ih dt hnd2 hl2
      · simp only [buildSchema, if_neg hlist, dictLookup, hn, if_false]
        exact ih dt hnd2 hl2

theorem mem_of_dedupNames : ∀ (l : List String) (x : String), x ∈ dedupNames l → x ∈ l := by
  intro l
  induction l with
  | nil => intro x h; simp [dedupNames] at h
  | cons hd tl ih =>
    intro x h
    by_cases hm : hd ∈ tl
    · simp only [dedupNames, hm, if_true] at h
      exact List.mem_cons_of_mem hd (ih x h)
    · simp only [dedupNames, hm, if_false] at h
      rcases List.mem_cons.mp h with h1 | h2
      · exact h1 ▸ List.mem_cons_self hd tl
      · exact List.mem_cons_of_mem hd (ih x h2)

theorem dedupNames_nodup : ∀ l : List String, (dedupNames l).Nodup := by
  intro l
  induction l with
  | nil => exact List.nodup_nil
  | cons hd tl ih =>
    by_cases h : hd ∈ tl
    · simpa [dedupNames, h] using ih
    · simp only [dedupNames, h, if_false]
      refine List.nodup_cons.mpr ⟨?_, ih⟩
      intro hmem
      exact h (mem_of_dedupNames tl hd hmem)

/-! ## Character-level lemmas about the parsers -/

theorem takeWhile_append_eq (p : Char → Bool) (a : List Char) (c : Char) (r : List Char)
    (ha : ∀ x ∈ a, p x = true) (hc : p c = false) :
    (a ++ c :: r).takeWhile p = a ∧ (a ++ c :: r).dropWhile p = c :: r := by
  induction a with
  | nil => simp [List.takeWhile_cons, List.dropWhile_cons, hc]
  | cons x a2 ih =>
    have hx : p x = true := ha x (by simp)
    have ih2 := ih (fun y hy => ha y (by simp [hy]))
    simp [List.takeWhile_cons, List.dropWhile_cons, hx, ih2.1, ih2.2]

theorem parseISO_decomp (s : String) (h : parseISO s = true) :
    ∃ a s1 b s2 c, s.data = a ++ s1 :: (b ++ s2 :: c) ∧
      a ≠ [] ∧ b ≠ [] ∧ c ≠ [] ∧
      (∀ x ∈ a, x.isDigit = true) ∧ (∀ x ∈ b, x.isDigit = true) ∧
      (∀ x ∈ c, x.isDigit = true) ∧ (s1 = '-' ∨ s1 = '/') ∧ (s2 = '-' ∨ s2 = '/') := by
  rcases h1 : s.data.dropWhile Char.isDigit with _ | ⟨s1, r2⟩
  · simp only [parseISO, takeDigits, h1] at h
    exact absurd h (by simp)
  · simp only [parseISO, takeDigits, h1] at h
    by_cases hs1 : s1 = '-' ∨ s1 = '/'
    · rw [if_pos hs1] at h
      rcases h2 : r2.dropWhile Char.isDigit with _ | ⟨s2, r4⟩
      · simp only [h2] at h
        exact absurd h (by simp)
      · simp only [h2] at h
        by_cases hs2 : s2 = '-' ∨ s2 = '/'
        · rw [if_pos hs2] at h
          simp only [Bool.and_eq_true, decide_eq_true_eq, List.isEmpty_iff] at h
          obtain ⟨⟨⟨⟨⟨⟨hlen4, hb1⟩, hb2⟩, hc1⟩, hc2⟩, hw2⟩, hvd⟩ := h
          refine ⟨s.data.takeWhile Char.isDigit, s1, r2.takeWhile Char.isDigit, s2,
            r4.takeWhile Char.isDigit, ?_, ?_, ?_, ?_,
            fun x hx => List.mem_takeWhile_imp hx,
            fun x hx => List.mem_takeWhile_imp hx,
            fun x hx => List.mem_takeWhile_imp hx, hs1, hs2⟩
          · have e1 : s.data = s.data.takeWhile Char.isDigit ++ (s1 :: r2) := by
              rw [← h1]; exact (List.takeWhile_append_dropWhile Char.isDigit s.data).symm
            have e2 : r2 = r2.takeWhile Char.isDigit ++ (s2 :: r4) := by
              rw [← h2]; exact (List.takeWhile_append_dropWhile Char.isDigit r2).symm
            have e3 : r4 = r4.takeWhile Char.isDigit := by
              conv_lhs => rw [← List.takeWhile_append_dropWhile Char.isDigit r4]
              rw [hw2, List.append_nil]
            conv_lhs => rw [e1]
            conv_lhs => rw [e2]
            rw [← e3]
          · intro e; rw [e] at hlen4; simp at hlen4
          · intro e; rw [e] at hb1; simp at hb1
          · intro e; rw [e] at hc1; simp at hc1
        · rw [if_neg hs2] at h; exact absurd h (by simp)
    · rw [if_neg hs1] at h; exact absurd h (by simp)

theorem parseTwoFieldYear_decomp (df : Bool) (sep : Char) (s : String)
    (h : parseTwoFieldYear df sep s = true) :
    ∃ a b c, s.data = a ++ sep :: (b ++ sep :: c) ∧
      a ≠ [] ∧ b ≠ [] ∧ c ≠ [] ∧
      (∀ x ∈ a, x.isDigit = true) ∧ (∀ x ∈ b, x.isDigit = true) ∧
      (∀ x ∈ c, x.isDigit = true) := by
  rcases h1 : s.data.dropWhile Char.isDigit with _ | ⟨s1, r2⟩
  · simp only [parseTwoFieldYear, takeDigits, h1] at h
    exact absurd h (by simp)
  · simp only [parseTwoFieldYear, takeDigits, h1] at h
    by_cases hs1 : s1 = sep
    · rw [if_pos hs1] at h
      rcases h2 : r2.dropWhile Char.isDigit with _ | ⟨s2, r4⟩
      · simp only [h2] at h
        exact absurd h (by simp)
      · simp only [h2] at h
        by_cases hs2 : s2 = sep
        · rw [if_pos hs2] at h
          simp only [Bool.and_eq_true, decide_eq_true_eq, List.isEmpty_iff] at h
          obtain ⟨⟨⟨⟨⟨⟨⟨ha1, ha2⟩, hb1⟩, hb2⟩, hc1⟩, hc2⟩, hw2⟩, hvd⟩ := h
          refine ⟨s.data.takeWhile Char.isDigit, r2.takeWhile Char.isDigit,
            r4.takeWhile Char.isDigit, ?_, ?_, ?_, ?_,
            fun x hx => List.mem_takeWhile_imp hx,
            fun x hx => List.mem_takeWhile_imp hx,
            fun x hx => List.mem_takeWhile_imp hx⟩
          · have e1 : s.data = s.data.takeWhile Char.isDigit ++ (s1 :: r2) := by
              rw [← h1]; exact (List.takeWhile_append_dropWhile Char.isDigit s.data).symm
            have e2 : r2 = r2.takeWhile Char.isDigit ++ (s2 :: r4) := by
              rw [← h2]; exact (List.takeWhile_append_dropWhile Char.isDigit r2).symm
            have e3 : r4 = r4.takeWhile Char.isDigit := by
              conv_lhs => rw [← List.takeWhile_append_dropWhile Char.isDigit r4]
              rw [hw2, List.append_nil]
            conv_lhs => rw [e1]
            conv_lhs => rw [e2]
            rw [← e3, hs1, hs2]
          · intro e; rw [e] at ha1; simp at ha1
          · intro e; rw [e] at hb1; simp at hb1
          · intro e; rw [e] at hc1; simp at hc1
        · rw [if_neg hs2] at h; exact absurd h (by simp)
    · rw [if_neg hs1] at h; exact absurd h (by simp)

/-- A digit character is none of the special characters used by the other
parsers. -/
theorem isDigit_ne (c d : Char) (hc : c.isDigit = true) (hd : d.isDigit = false) : c ≠ d := by
  intro e; rw [e] at hc; rw [hc] at hd; exact absurd hd (by simp)

/-- A string whose characters begin with a non-empty digit run followed by a
`-` or `/` separator is rejected by the numeric parser. -/
theorem toNumericCell_fail_sep (s : String) (a : List Char) (sep : Char) (rest : List Char)
    (hs : s.data = a ++ sep :: rest) (ha : a ≠ [])
    (hd : ∀ x ∈ a, x.isDigit = true) (hsep : sep = '-' ∨ sep = '/') :
    toNumericCell s = NumParse.fail := by
  obtain ⟨a0, a2, rfl⟩ : ∃ a0 a2, a = a0 :: a2 := by
    cases a with
    | nil => exact absurd rfl ha
    | cons x y => exact ⟨x, y, rfl⟩
  have ha0 : a0.isDigit = true := hd a0 (by simp)
  have hsd : sep.isDigit = false := by rcases hsep with rfl | rfl <;> decide
  have hdot : sep ≠ '.' := by rcases hsep with rfl | rfl <;> decide
  have hexp1 : sep ≠ 'e' := by rcases hsep with rfl | rfl <;> decide
  have hexp2 : sep ≠ 'E' := by rcases hsep with rfl | rfl <;> decide
  have hne : s ≠ "" := by
    intro e
    have h0 : s.data = [] := by rw [e]
    rw [hs] at h0; exact absurd h0 (by simp)
  have hsgn : dropSign1 s.data = s.data := by
    rw [hs]
    simp only [List.cons_append, dropSign1]
    rw [if_neg]
    intro hor
    rcases hor with he | he
    · exact isDigit_ne a0 '+' ha0 (by decide) he
    · exact isDigit_ne a0 '-' ha0 (by decide) he
  have htw := takeWhile_append_eq Char.isDigit (a0 :: a2) sep rest hd hsd
  have hmant : mantRest s.data = some (sep :: rest) := by
    rw [hs]
    simp only [mantRest, takeDigits, htw.1, htw.2]
    rw [if_neg hdot, if_neg (by simp)]
  have hcore : numCore s.data = false := by
    simp only [numCore, hmant]
    rw [if_neg]
    intro hor
    rcases hor with he | he
    · exact hexp1 he
    · exact hexp2 he
  simp only [toNumericCell, if_neg hne, hsgn, hcore, Bool.false_eq_true, if_false]

/-- A string containing a `-` or `/` anywhere is not boolean-like. -/
theorem is_boolean_value_false_of_sep (s : String) (sep : Char) (hmem : sep ∈ s.data)
    (hsep : sep = '-' ∨ sep = '/') : is_boolean_value (Value.str s) = false := by
  have hkey : ∀ t : String, pyLower s = t → sep ∈ t.data := by
    intro t ht
    have : s.data.map Char.toLower = t.data := congrArg String.data ht
    have hl : Char.toLower sep = sep := by rcases hsep with rfl | rfl <;> decide
    rw [← this, ← hl]
    exact List.mem_map_of_mem Char.toLower hmem
  simp only [is_boolean_value, Bool.or_eq_false_iff, decide_eq_false_iff_not]
  constructor
  · intro ht
    have := hkey "true" ht
    rcases hsep with rfl | rfl <;> simp at this
  · intro ht
    have := hkey "false" ht
    rcases hsep with rfl | rfl <;> simp at this

theorem startsNullMarker_head (l : List Char) (h : startsNullMarker l = true) :
    ∃ r, l = '<' :: r := by
  rcases l with _ | ⟨a, _ | ⟨b, _ | ⟨c, _ | ⟨d, _ | ⟨e, _ | ⟨f, r⟩⟩⟩⟩⟩⟩ <;>
    simp only [startsNullMarker] at h
  · exact absurd h (by simp)
  · exact absurd h (by simp)
  · exact absurd h (by simp)
  · exact absurd h (by simp)
  · exact absurd h (by simp)
  · exact absurd h (by simp)
  · simp only [Bool.and_eq_true, decide_eq_true_eq] at h
    exact ⟨b :: c :: d :: e :: f :: r, by rw [h.1.1.1.1.1]⟩

theorem removeNull_noop (l : List Char) (h : ∀ x ∈ l, x ≠ '<') : removeNull l = l := by
  induction l with
  | nil => rfl
  | cons c rest ih =>
    have hsm : startsNullMarker (c :: rest) = false := by
      cases hb : startsNullMarker (c :: rest) with
      | false => rfl
      | true =>
        obtain ⟨r, hr⟩ := startsNullMarker_head _ hb
        have hc : c = '<' := (List.cons.injEq _ _ _ _ ▸ hr).1
        exact absurd hc (h c (by simp))
    rw [removeNull.eq_def]
    simp only [hsm, Bool.false_eq_true, if_false]
    exact congrArg (List.cons c) (ih (fun x hx => h x (by simp [hx])))

/-! ## Lemmas about all-string columns -/

theorem strCells_map_str (vals : List String) : strCells (vals.map Value.str) = some vals := by
  induction vals with
  | nil => rfl
  | cons v r ih => simp [strCells, ih]

theorem stripColumn_map_str (vals : List String) :
    stripColumn (vals.map Value.str) =
      .ok (vals.map (fun v => (⟨v.data.filter (· ≠ ',')⟩ : String))) := by
  induction vals with
  | nil => rfl
  | cons v r ih => simp [stripColumn, commaStrip, ih]

theorem infer_number_false_of_fail (vals : List String) (v : String) (hv : v ∈ vals)
    (hf : toNumericCell ⟨v.data.filter (· ≠ ',')⟩ = NumParse.fail) :
    infer_number (vals.map Value.str) = .ok false := by
  have hany : ((vals.map (fun v => (⟨v.data.filter (· ≠ ',')⟩ : String))).map
      toNumericCell).any (· = NumParse.fail) = true := by
    simp only [List.any_eq_true, decide_eq_true_eq]
    refine ⟨NumParse.fail, ?_, rfl⟩
    rw [List.map_map, ← hf]
    exact List.mem_map_of_mem _ hv
  simp only [infer_number, stripColumn_map_str, hany, if_true]

theorem mem_uniqueAux (l : List Value) : ∀ acc x, x ∈ l → x ∉ acc → x ∈ uniqueAux l acc := by
  induction l with
  | nil => intro acc x hx _; exact absurd hx (by simp)
  | cons hd tl ih =>
    intro acc x hx hacc
    by_cases hm : hd ∈ acc
    · rw [uniqueAux.eq_def]
      simp only [if_pos hm]
      rcases List.mem_cons.mp hx with rfl | htl
      · exact absurd hm hacc
      · exact ih acc x htl hacc
    · rw [uniqueAux.eq_def]
      simp only [if_neg hm]
      rcases List.mem_cons.mp hx with rfl | htl
      · exact List.mem_cons_self _ _
      · by_cases hxh : x = hd
        · subst hxh; exact List.mem_cons_self _ _
        · refine List.mem_cons_of_mem _ (ih (hd :: acc) x htl ?_)
          simp [List.mem_cons, hxh, hacc]

theorem mem_uniqueList (l : List Value) (x : Value) (hx : x ∈ l) : x ∈ uniqueList l :=
  mem_uniqueAux l [] x hx (by simp)

theorem infer_boolean_false_of_nonbool (cells : List Value) (v : Value) (hv : v ∈ cells)
    (hb : is_boolean_value v = false) (hna : isna v = false) (hemp : emptyToNan v = v) :
    infer_boolean cells = false := by
  have hv2 : v ∈ cells.map emptyToNan := by
    rw [← hemp]; exact List.mem_map_of_mem emptyToNan hv
  have hu : v ∈ uniqueList (cells.map emptyToNan) := mem_uniqueList _ v hv2
  rcases hul : uniqueList (cells.map emptyToNan) with _ | ⟨u0, urest⟩
  · rw [hul] at hu; exact absurd hu (by simp)
  · simp only [infer_boolean, hul]
    rw [hul] at hu
    by_cases hcond : (urest.isEmpty && isna u0) = true
    · rw [if_pos hcond]
    · rw [if_neg hcond]
      rw [List.all_eq_false]
      exact ⟨v, hu, by simp [hb, hna]⟩

theorem map_clean_noop (vals : List String) (h1 : ∀ v ∈ vals, v ≠ "")
    (h2 : ∀ v ∈ vals, ∀ x ∈ v.data, x ≠ '<') :
    (vals.map Value.str).map (fun v => emptyToNan (removeNullV v)) = vals.map Value.str := by
  rw [List.map_map]
  apply List.map_congr_left
  intro v hv
  have hrn : removeNull v.data = v.data := removeNull_noop v.data (h2 v hv)
  simp [Function.comp, removeNullV, hrn, emptyToNan, h1 v hv]

theorem filter_nan_noop (vals : List String) :
    (vals.map Value.str).filter (· ≠ Value.nan) = vals.map Value.str := by
  apply List.filter_eq_self.mpr
  intro a ha
  rcases List.mem_map.mp ha with ⟨v, _, rfl⟩
  simp

theorem filter_truthy_noop (vals : List String) (h1 : ∀ v ∈ vals, v ≠ "") :
    (vals.map Value.str).filter truthy = vals.map Value.str := by
  apply List.filter_eq_self.mpr
  intro a ha
  rcases List.mem_map.mp ha with ⟨v, hv, rfl⟩
  simp [truthy, h1 v hv]

theorem infer_datetime_eq_dtfm (name : String) (vals : List String) (hne : vals ≠ [])
    (h1 : ∀ v ∈ vals, v ≠ "") (h2 : ∀ v ∈ vals, ∀ x ∈ v.data, x ≠ '<')
    (dfm : List (String × String)) :
    infer_datetime name (vals.map Value.str) dfm =
      infer_datetime_and_format name (vals.map Value.str) dfm := by
  unfold infer_datetime
  rw [map_clean_noop vals h1 h2, filter_nan_noop vals]
  have hne2 : (vals.map Value.str).isEmpty = false := by
    cases vals with
    | nil => exact absurd rfl hne
    | cons v r => rfl
  rw [if_neg (by rw [hne2]; simp)]

theorem isnullAll_map_str (vals : List String) (hne : vals ≠ []) :
    isnullAll (vals.map Value.str) = false := by
  cases vals with
  | nil => exact absurd rfl hne
  | cons v r => simp [isnullAll]

theorem dtypeName_map_str (vals : List String) :
    dtypeName (vals.map Value.str) = "object" := by
  cases vals with
  | nil => rfl
  | cons v r => simp [dtypeName]

theorem noList_map_str (vals : List String) :
    (vals.map Value.str).any Value.isList = false := by
  rw [Bool.eq_false_iff]
  intro h
  rcases List.any_eq_true.mp h with ⟨x, hx, hl⟩
  rcases List.mem_map.mp hx with ⟨v, _, rfl⟩
  simp [Value.isList] at hl

/-! ## Date-like string columns -/

theorem decomp_chars_prop (v : String) (a b c : List Char) (s1 s2 : Char)
    (hv : v.data = a ++ s1 :: (b ++ s2 :: c))
    (hda : ∀ x ∈ a, x.isDigit = true) (hdb : ∀ x ∈ b, x.isDigit = true)
    (hdc : ∀ x ∈ c, x.isDigit = true)
    (hs1 : s1 = '-' ∨ s1 = '/') (hs2 : s2 = '-' ∨ s2 = '/') :
    ∀ x ∈ v.data, x.isDigit = true ∨ x = '-' ∨ x = '/' := by
  intro x hx
  rw [hv] at hx
  rcases List.mem_append.mp hx with hxa | hx2
  · exact Or.inl (hda x hxa)
  · rcases List.mem_cons.mp hx2 with rfl | hx3
    · exact Or.inr hs1
    · rcases List.mem_append.mp hx3 with hxb | hx4
      · exact Or.inl (hdb x hxb)
      · rcases List.mem_cons.mp hx4 with rfl | hxc
        · exact Or.inr hs2
        · exact Or.inl (hdc x hxc)

theorem datechar_ne (x : Char) (hx : x.isDigit = true ∨ x = '-' ∨ x = '/') (d : Char)
    (hd : d.isDigit = false) (h1 : d ≠ '-') (h2 : d ≠ '/') : x ≠ d := by
  rcases hx with h | rfl | rfl
  · exact isDigit_ne x d h hd
  · exact fun e => h1 e.symm
  · exact fun e => h2 e.symm

theorem ne_empty_of_decomp (v : String) (a : List Char) (s1 : Char) (r : List Char)
    (hv : v.data = a ++ s1 :: r) : v ≠ "" := by
  intro e
  have h0 : v.data = [] := by rw [e]
  rw [hv] at h0
  rcases a with _ | ⟨x, y⟩ <;> simp at h0

theorem string_filter_comma_noop (v : String) (h : ∀ x ∈ v.data, x ≠ ',') :
    (⟨v.data.filter (· ≠ ',')⟩ : String) = v := by
  have heq : v.data.filter (· ≠ ',') = v.data :=
    List.filter_eq_self.mpr (by intro x hx; simpa using h x hx)
  rw [heq]

/-- The shape shared by every value of a column in one of the five date
formats, and the checks it settles. -/
theorem datelike_facts (v : String)
    (hdec : ∃ a s1 b s2 c, v.data = a ++ s1 :: (b ++ s2 :: c) ∧ a ≠ [] ∧ b ≠ [] ∧ c ≠ [] ∧
      (∀ x ∈ a, x.isDigit = true) ∧ (∀ x ∈ b, x.isDigit = true) ∧ (∀ x ∈ c, x.isDigit = true) ∧
      (s1 = '-' ∨ s1 = '/') ∧ (s2 = '-' ∨ s2 = '/')) :
    v ≠ "" ∧ (∀ x ∈ v.data, x ≠ '<') ∧
    toNumericCell ⟨v.data.filter (· ≠ ',')⟩ = NumParse.fail ∧
    is_boolean_value (Value.str v) = false := by
  obtain ⟨a, s1, b, s2, c, hv, ha, hb, hc, hda, hdb, hdc, hs1, hs2⟩ := hdec
  have hchars := decomp_chars_prop v a b c s1 s2 hv hda hdb hdc hs1 hs2
  have hvne : v ≠ "" := ne_empty_of_decomp v a s1 (b ++ s2 :: c) hv
  have hcomma : ∀ x ∈ v.data, x ≠ ',' := fun x hx =>
    datechar_ne x (hchars x hx) ',' (by decide) (by decide) (by decide)
  have hstr : (⟨v.data.filter (· ≠ ',')⟩ : String) = v := string_filter_comma_noop v hcomma
  refine ⟨hvne, ?_, ?_, ?_⟩
  · exact fun x hx => datechar_ne x (hchars x hx) '<' (by decide) (by decide) (by decide)
  · rw [hstr]
    exact toNumericCell_fail_sep v a s1 (b ++ s2 :: c) hv ha hda hs1
  · refine is_boolean_value_false_of_sep v s1 ?_ hs1
    rw [hv]
    exact List.mem_append.mpr (Or.inr (List.mem_cons_self _ _))

/-- On a column of date-shaped strings, `infer_column` is decided entirely
by the format resolver: `date-time` if it confirms, `string` otherwise (the
numeric and boolean checks both fail on every such value). -/
theorem infer_column_datelike_aux (name : String) (vals : List String)
    (hne : vals ≠ [])
    (hfacts : ∀ v ∈ vals, v ≠ "" ∧ (∀ x ∈ v.data, x ≠ '<') ∧
      toNumericCell ⟨v.data.filter (· ≠ ',')⟩ = NumParse.fail ∧
      is_boolean_value (Value.str v) = false)
    (dfm : List (String × String)) (lens : List (String × Nat)) :
    infer_column name (vals.map Value.str) dfm lens =
      (match infer_datetime_and_format name (vals.map Value.str) dfm with
       | (true, dfm2) =>
         .ok (some "date-time", dfm2, dictInsert name (maxLen (vals.map Value.str)) lens)
       | (false, dfm2) =>
         .ok (some "string", dfm2, dictInsert name (maxLen (vals.map Value.str)) lens)) := by
  obtain ⟨v0, vr, rfl⟩ : ∃ v0 vr, vals = v0 :: vr := by
    cases vals with
    | nil => exact absurd rfl hne
    | cons x y => exact ⟨x, y, rfl⟩
  have hmem0 : v0 ∈ v0 :: vr := List.mem_cons_self _ _
  have hnumf : infer_number ((v0 :: vr).map Value.str) = .ok false :=
    infer_number_false_of_fail (v0 :: vr) v0 hmem0 (hfacts v0 hmem0).2.2.1
  have hboolf : infer_boolean ((v0 :: vr).map Value.str) = false := by
    refine infer_boolean_false_of_nonbool _ (Value.str v0)
      (List.mem_map_of_mem Value.str hmem0) (hfacts v0 hmem0).2.2.2 rfl ?_
    simp [emptyToNan, (hfacts v0 hmem0).1]
  have hidt : ∀ d, infer_datetime name ((v0 :: vr).map Value.str) d =
      infer_datetime_and_format name ((v0 :: vr).map Value.str) d :=
    fun d => infer_datetime_eq_dtfm name (v0 :: vr) hne
      (fun v hv => (hfacts v hv).1) (fun v hv => (hfacts v hv).2.1) d
  simp only [infer_column, isnullAll_map_str (v0 :: vr) hne, dtypeName_map_str,
    noList_map_str, hnumf, hidt dfm, Bool.false_eq_true, if_false]
  rcases hres : infer_datetime_and_format name ((v0 :: vr).map Value.str) dfm with ⟨b, dfm2⟩
  cases b with
  | true => simp
  | false =>
    have hboolf2 : infer_boolean (Value.str v0 :: List.map Value.str vr) = false := hboolf
    simp [hboolf2]

theorem dtfm_iso (name : String) (vals : List String) (m : String)
    (h1 : ∀ v ∈ vals, v ≠ "") (hiso : ∀ v ∈ vals, parseISO v = true)
    (hm : listMin vals = some m) (dfm : List (String × String)) :
    infer_datetime_and_format name (vals.map Value.str) dfm =
      (true, dictInsert name (if m.data.contains '/' then "YYYY/MM/DD" else "YYYY-MM-DD") dfm) := by
  simp only [infer_datetime_and_format, filter_truthy_noop vals h1, strCells_map_str, hm]
  rw [if_pos (List.all_eq_true.mpr hiso)]

/-! ## From `generate_schema` back to the per-column facts -/

/-- Everything `generate_schema` guarantees about one of its columns. -/
theorem generate_schema_spec (samples : List Row) (flag : Bool)
    (sch : List (String × Json)) (dfm : List (String × String)) (name : String)
    (h : generate_schema samples flag = .ok (sch, dfm))
    (hmem : name ∈ columnNames samples) :
    ∃ (t : Option String) (o : Option String) (L : Nat),
      (t = some "date-time" → ∃ l, o = some l) ∧
      (t = some "list" → o = Option.none) ∧
      (∀ dfmb lensb, infer_column name (getColumn samples name) dfmb lensb =
        .ok (t, applyUpd name o dfmb, dictInsert name L lensb)) ∧
      dictLookup name dfm = o ∧
      dictLookup name sch =
        (if t = some "list" then Option.none
         else some (datatype_schema t L flag)) := by
  unfold generate_schema at h
  rcases hp : processColumns samples (columnNames samples) [] [] [] with e | ⟨ct, dfm0, lens0⟩
  · rw [hp] at h; exact absurd h (by simp)
  · rw [hp] at h
    have hsch : sch = buildSchema ct lens0 flag := by
      injection h with h1; exact (congrArg Prod.fst h1).symm
    have hdfm : dfm = dfm0 := by
      injection h with h1; exact (congrArg Prod.snd h1).symm
    obtain ⟨t, o, L, hdt, hlist, heq, hct, hdfm0, hlen⟩ :=
      processColumns_spec samples (columnNames samples) [] [] [] ct dfm0 lens0 name hp
        (dedupNames_nodup _) hmem rfl rfl
    have hkeys : ct.map Prod.fst = columnNames samples := by
      have := processColumns_keys samples (columnNames samples) [] [] [] ct dfm0 lens0 hp
      simpa using this
    have hknd : (ct.map Prod.fst).Nodup := by rw [hkeys]; exact dedupNames_nodup _
    refine ⟨t, o, L, hdt, hlist, heq, by rw [hdfm]; exact hdfm0, ?_⟩
    rw [hsch, buildSchema_lookup name lens0 flag ct t hknd hct, hlen]
    rfl

/-! ## Further helpers for the boolean check and list columns -/

theorem mem_of_uniqueAux (l : List Value) : ∀ acc x, x ∈ uniqueAux l acc → x ∈ l := by
  induction l with
  | nil => intro acc x hx; simp only [uniqueAux] at hx; exact absurd hx (by simp)
  | cons hd tl ih =>
    intro acc x hx
    simp only [uniqueAux] at hx
    by_cases hm : hd ∈ acc
    · rw [if_pos hm] at hx
      exact List.mem_cons_of_mem hd (ih acc x hx)
    · rw [if_neg hm] at hx
      rcases List.mem_cons.mp hx with rfl | hx2
      · exact List.mem_cons_self _ _
      · exact List.mem_cons_of_mem hd (ih (hd :: acc) x hx2)

theorem mem_of_uniqueList (l : List Value) (x : Value) (hx : x ∈ uniqueList l) : x ∈ l :=
  mem_of_uniqueAux l [] x hx

theorem uniqueAux_disjoint (l : List Value) : ∀ acc x, x ∈ uniqueAux l acc → x ∉ acc := by
  induction l with
  | nil => intro acc x hx; simp only [uniqueAux] at hx; exact absurd hx (by simp)
  | cons hd tl ih =>
    intro acc x hx
    simp only [uniqueAux] at hx
    by_cases hm : hd ∈ acc
    · rw [if_pos hm] at hx
      exact ih acc x hx
    · rw [if_neg hm] at hx
      rcases List.mem_cons.mp hx with rfl | hx2
      · exact hm
      · have := ih (hd :: acc) x hx2
        exact fun hacc => this (List.mem_cons_of_mem hd hacc)

theorem uniqueAux_nodup (l : List Value) : ∀ acc, (uniqueAux l acc).Nodup := by
  induction l with
  | nil => intro acc; simp only [uniqueAux]; exact List.nodup_nil
  | cons hd tl ih =>
    intro acc
    simp only [uniqueAux]
    by_cases hm : hd ∈ acc
    · rw [if_pos hm]; exact ih acc
    · rw [if_neg hm]
      refine List.nodup_cons.mpr ⟨?_, ih (hd :: acc)⟩
      intro hmem
      exact uniqueAux_disjoint tl (hd :: acc) hd hmem (List.mem_cons_self _ _)

theorem uniqueList_nodup (l : List Value) : (uniqueList l).Nodup := uniqueAux_nodup l []

theorem isna_iff (v : Value) : isna v = true ↔ v = Value.nan := by
  cases v <;> simp [isna]

theorem emptyToNan_eq_self (v : Value) (h : v ≠ Value.str "") : emptyToNan v = v := by
  simp [emptyToNan, h]

theorem listMin_some (vals : List String) (hne : vals ≠ []) : ∃ m, listMin vals = some m := by
  cases vals with
  | nil => exact absurd rfl hne
  | cons v r =>
    simp only [listMin]
    rcases h : listMin r with _ | m
    · exact ⟨v, rfl⟩
    · exact ⟨if charsLt m.data v.data then m else v, rfl⟩

theorem dtypeName_object_of_vlist (cells : List Value) (x : Value) (hx : x ∈ cells)
    (hlx : x.isList = true) : dtypeName cells = "object" := by
  obtain ⟨xs, rfl⟩ : ∃ xs, x = Value.vlist xs := by
    cases x <;> simp [Value.isList] at hlx
    exact ⟨_, rfl⟩
  unfold dtypeName
  rw [if_neg, if_neg, if_neg]
  · intro hc
    rw [Bool.and_eq_true] at hc
    have := List.all_eq_true.mp hc.2 _ hx
    simp at this
  · intro hc
    rw [Bool.and_eq_true] at hc
    have := List.all_eq_true.mp hc.2 _ hx
    simp at this
  · intro hc
    rw [Bool.and_eq_true] at hc
    have := List.all_eq_true.mp hc.2 _ hx
    simp at this

/-- A column containing a list cell is classified `list` with no map update
beyond its length. -/
theorem infer_column_list (name : String) (cells : List Value)
    (hl : cells.any Value.isList = true) :
    ∀ dfm lens, infer_column name cells dfm lens =
      .ok (some "list", dfm, dictInsert name (maxLen cells) lens) := by
  intro dfm lens
  obtain ⟨x, hx, hlx⟩ := List.any_eq_true.mp hl
  have hnull : isnullAll cells = false := by
    rw [isnullAll, List.all_eq_false]
    refine ⟨x, hx, ?_⟩
    cases x <;> simp [Value.isList] at hlx ⊢
  have hobj : dtypeName cells = "object" := dtypeName_object_of_vlist cells x hx hlx
  simp only [infer_column, hnull, hobj, hl, Bool.false_eq_true, if_false, if_true]

/-! ## The claims -/

/-- C9: `datatype_schema('number', 5, True)` is exactly
`{'type': ['null', 'number', 'string'], 'maxLength': 5}`, and with the flag
false the same schema with no `maxLength` key. -/
theorem claim9_number_schema :
    datatype_schema (some "number") 5 true =
      Json.obj [("type", Json.arr [Json.str "null", Json.str "number", Json.str "string"]),
        ("maxLength", Json.nat 5)] ∧
    datatype_schema (some "number") 5 false =
      Json.obj [("type", Json.arr [Json.str "null", Json.str "number", Json.str "string"])] :=
  ⟨rfl, rfl⟩

/-- C7: a column whose cells are all null/missing is typed `string` with
recorded length `0`. -/
theorem claim7_all_null_string (name : String) (cells : List Value)
    (dfm : List (String × String)) (lens : List (String × Nat))
    (h : cells.all (· = Value.nan) = true) :
    infer_column name cells dfm lens = .ok (some "string", dfm, dictInsert name 0 lens) := by
  unfold infer_column
  rw [if_pos (show isnullAll cells = true from h)]

/-- Witness for C7 at the concrete all-null column `[NaN, NaN]`. -/
theorem claim7_all_null_string_witness :
    [Value.nan, Value.nan].all (· = Value.nan) = true ∧
    infer_column "a" [Value.nan, Value.nan] [] [] = .ok (some "string", [], [("a", 0)]) :=
  ⟨by decide, claim7_all_null_string "a" [Value.nan, Value.nan] [] [] (by decide)⟩

/-- C3 (code bug): `generate_schema` propagates an exception.  On the batch
`[{'a': '1'}, {}]` the column `a` holds a string and a missing cell (`NaN`);
`infer_number`'s comma-stripping `apply` runs outside its `try`, so
`NaN.replace` raises an `AttributeError` that escapes `generate_schema`,
contrary to the spec's requirement that failures inside the numeric check be
swallowed. -/
theorem claim3_exception_escapes :
    infer_number [Value.str "1", Value.nan] =
      .error "AttributeError: float object has no attribute replace" ∧
    generate_schema [[("a", Value.str "1")], []] true =
      .error "AttributeError: float object has no attribute replace" :=
  ⟨rfl, rfl⟩

/-- C2 counterexample: the column `[1, NaN]` (an integer with a missing
cell) has the numeric, non-object dtype `float64` and is not all-null, yet
`infer_column` returns no type tag (`None`) rather than `'number'`. -/
theorem claim2_counterexample :
    dtypeName [Value.pyint 1, Value.nan] = "float64" ∧
    isnullAll [Value.pyint 1, Value.nan] = false ∧
    infer_column "a" [Value.pyint 1, Value.nan] [] [] = .ok (Option.none, [], [("a", 3)]) :=
  ⟨rfl, rfl, rfl⟩

/-- C2 as amended: `infer_column` returns `'number'` for a non-object
numeric dtype only when that dtype is one of `int32`/`int64`/`float32` —
e.g. for every non-empty all-integer column (dtype `int64`). -/
theorem claim2_int_column_number (name : String) (ns : List Int)
    (dfm : List (String × String)) (lens : List (String × Nat)) (hne : ns ≠ []) :
    infer_column name (ns.map Value.pyint) dfm lens =
      .ok (some "number", dfm, dictInsert name (maxLen (ns.map Value.pyint)) lens) := by
  obtain ⟨n0, nr, rfl⟩ : ∃ n0 nr, ns = n0 :: nr := by
    cases ns with
    | nil => exact absurd rfl hne
    | cons x y => exact ⟨x, y, rfl⟩
  have hnull : isnullAll ((n0 :: nr).map Value.pyint) = false := by
    rw [isnullAll, List.all_eq_false]
    exact ⟨Value.pyint n0, by simp, by simp⟩
  have hint : dtypeName ((n0 :: nr).map Value.pyint) = "int64" := by
    unfold dtypeName
    rw [if_neg, if_pos]
    · rw [Bool.and_eq_true]
      refine ⟨by simp, List.all_eq_true.mpr ?_⟩
      intro x hx
      rcases List.mem_map.mp hx with ⟨n, _, rfl⟩
      rfl
    · intro hc
      rw [Bool.and_eq_true] at hc
      have := List.all_eq_true.mp hc.2 (Value.pyint n0) (by simp)
      simp at this
  simp only [infer_column, hnull, hint, Bool.false_eq_true, if_false]
  rw [if_neg (by decide), if_pos (by simp)]

/-- Witness for C2's amended claim at the concrete integer column `[7]`. -/
theorem claim2_int_column_number_witness :
    ([7] : List Int) ≠ [] ∧
    infer_column "n" [Value.pyint 7] [] [] = .ok (some "number", [], [("n", 1)]) :=
  ⟨by decide, claim2_int_column_number "n" [7] [] [] (by decide)⟩

/-- C5: a textual column whose values all parse under the 4-digit-year-first
pattern is typed `date-time`, with the label decided by the minimum value of
the column: `YYYY/MM/DD` if it contains `/`, else `YYYY-MM-DD`. -/
theorem claim5_iso_datetime (name : String) (vals : List String) (m : String)
    (dfm : List (String × String)) (lens : List (String × Nat))
    (hne : vals ≠ []) (hiso : ∀ v ∈ vals, parseISO v = true)
    (hm : listMin vals = some m) :
    infer_column name (vals.map Value.str) dfm lens =
      .ok (some "date-time",
        dictInsert name (if m.data.contains '/' then "YYYY/MM/DD" else "YYYY-MM-DD") dfm,
        dictInsert name (maxLen (vals.map Value.str)) lens) := by
  have hfacts : ∀ v ∈ vals, v ≠ "" ∧ (∀ x ∈ v.data, x ≠ '<') ∧
      toNumericCell ⟨v.data.filter (· ≠ ',')⟩ = NumParse.fail ∧
      is_boolean_value (Value.str v) = false := by
    intro v hv
    exact datelike_facts v (parseISO_decomp v (hiso v hv))
  rw [infer_column_datelike_aux name vals hne hfacts dfm lens]
  rw [dtfm_iso name vals m (fun v hv => (hfacts v hv).1) hiso hm dfm]

/-- Witness for C5: the two concrete columns of the claim. -/
theorem claim5_iso_datetime_witness :
    infer_column "d" (["2022-01-02", "2022-01-15"].map Value.str) [] [] =
      .ok (some "date-time", [("d", "YYYY-MM-DD")], [("d", 10)]) ∧
    infer_column "d" (["2022/01/02", "2022/01/20"].map Value.str) [] [] =
      .ok (some "date-time", [("d", "YYYY/MM/DD")], [("d", 10)]) :=
  ⟨claim5_iso_datetime "d" ["2022-01-02", "2022-01-15"] "2022-01-02" [] []
      (by decide) (by decide) (by decide),
   claim5_iso_datetime "d" ["2022/01/02", "2022/01/20"] "2022/01/02" [] []
      (by decide) (by decide) (by decide)⟩

/-- C4: a textual column whose values all parse under one of the four
informational formats (and not under the year-first pattern) gets that
format's label recorded in the date format map, but the resolver returns
fail, and `infer_column` falls through past the boolean check to `string`.
Each format applies only when the earlier formats in the fixed order do not
match the whole column. -/
theorem claim4_informational_formats :
    (∀ (name : String) (vals : List String) (dfm : List (String × String))
        (lens : List (String × Nat)), vals ≠ [] →
      (∀ v ∈ vals, parseTwoFieldYear false '-' v = true) →
      (∀ v ∈ vals, parseISO v = false) →
      infer_datetime_and_format name (vals.map Value.str) dfm =
        (false, dictInsert name "MM-DD-YYYY" dfm) ∧
      infer_column name (vals.map Value.str) dfm lens =
        .ok (some "string", dictInsert name "MM-DD-YYYY" dfm,
          dictInsert name (maxLen (vals.map Value.str)) lens)) ∧
    (∀ (name : String) (vals : List String) (dfm : List (String × String))
        (lens : List (String × Nat)), vals ≠ [] →
      (∀ v ∈ vals, parseTwoFieldYear true '-' v = true) →
      (∀ v ∈ vals, parseISO v = false) →
      vals.all (parseTwoFieldYear false '-') = false →
      infer_datetime_and_format name (vals.map Value.str) dfm =
        (false, dictInsert name "DD-MM-YYYY" dfm) ∧
      infer_column name (vals.map Value.str) dfm lens =
        .ok (some "string", dictInsert name "DD-MM-YYYY" dfm,
          dictInsert name (maxLen (vals.map Value.str)) lens)) ∧
    (∀ (name : String) (vals : List String) (dfm : List (String × String))
        (lens : List (String × Nat)), vals ≠ [] →
      (∀ v ∈ vals, parseTwoFieldYear false '/' v = true) →
      (∀ v ∈ vals, parseISO v = false) →
      vals.all (parseTwoFieldYear false '-') = false →
      vals.all (parseTwoFieldYear true '-') = false →
      infer_datetime_and_format name (vals.map Value.str) dfm =
        (false, dictInsert name "MM/DD/YYYY" dfm) ∧
      infer_column name (vals.map Value.str) dfm lens =
        .ok (some "string", dictInsert name "MM/DD/YYYY" dfm,
          dictInsert name (maxLen (vals.map Value.str)) lens)) ∧
    (∀ (name : String) (vals : List String) (dfm : List (String × String))
        (lens : List (String × Nat)), vals ≠ [] →
      (∀ v ∈ vals, parseTwoFieldYear true '/' v = true) →
      (∀ v ∈ vals, parseISO v = false) →
      vals.all (parseTwoFieldYear false '-') = false →
      vals.all (parseTwoFieldYear true '-') = false →
      vals.all (parseTwoFieldYear false '/') = false →
      infer_datetime_and_format name (vals.map Value.str) dfm =
        (false, dictInsert name "DD/MM/YYYY" dfm) ∧
      infer_column name (vals.map Value.str) dfm lens =
        .ok (some "string", dictInsert name "DD/MM/YYYY" dfm,
          dictInsert name (maxLen (vals.map Value.str)) lens)) := by
  have main : ∀ (df : Bool) (sep : Char), (sep = '-' ∨ sep = '/') →
      ∀ (name : String) (vals : List String) (dfm : List (String × String))
        (lens : List (String × Nat)), vals ≠ [] →
      (∀ v ∈ vals, parseTwoFieldYear df sep v = true) →
      (∀ v ∈ vals, parseISO v = false) →
      ∀ lbl : String,
      (∀ h1 : ∀ v ∈ vals, v ≠ "", dtfmRest name vals dfm = (false, dictInsert name lbl dfm)) →
      infer_datetime_and_format name (vals.map Value.str) dfm =
        (false, dictInsert name lbl dfm) ∧
      infer_column name (vals.map Value.str) dfm lens =
        .ok (some "string", dictInsert name lbl dfm,
          dictInsert name (maxLen (vals.map Value.str)) lens) := by
    intro df sep hsep name vals dfm lens hne hfmt hniso lbl hrest
    have hfacts : ∀ v ∈ vals, v ≠ "" ∧ (∀ x ∈ v.data, x ≠ '<') ∧
        toNumericCell ⟨v.data.filter (· ≠ ',')⟩ = NumParse.fail ∧
        is_boolean_value (Value.str v) = false := by
      intro v hv
      obtain ⟨a, b, c, hv2, ha, hb, hc, hda, hdb, hdc⟩ :=
        parseTwoFieldYear_decomp df sep v (hfmt v hv)
      exact datelike_facts v ⟨a, sep, b, sep, c, hv2, ha, hb, hc, hda, hdb, hdc, hsep, hsep⟩
    have h1 : ∀ v ∈ vals, v ≠ "" := fun v hv => (hfacts v hv).1
    obtain ⟨v0, hv0⟩ : ∃ v0, v0 ∈ vals := by
      cases vals with
      | nil => exact absurd rfl hne
      | cons x y => exact ⟨x, by simp⟩
    have hdtfm : infer_datetime_and_format name (vals.map Value.str) dfm =
        (false, dictInsert name lbl dfm) := by
      simp only [infer_datetime_and_format, filter_truthy_noop vals h1, strCells_map_str]
      obtain ⟨m, hm⟩ := listMin_some vals hne
      simp only [hm]
      rw [if_neg (fun hall => by
        have := List.all_eq_true.mp hall v0 hv0
        rw [hniso v0 hv0] at this
        exact absurd this (by simp))]
      exact hrest h1
    refine ⟨hdtfm, ?_⟩
    rw [infer_column_datelike_aux name vals hne hfacts dfm lens, hdtfm]
  refine ⟨?_, ?_, ?_, ?_⟩
  · intro name vals dfm lens hne hfmt hniso
    refine main false '-' (Or.inl rfl) name vals dfm lens hne hfmt hniso "MM-DD-YYYY" ?_
    intro h1
    unfold dtfmRest
    rw [if_pos (List.all_eq_true.mpr hfmt)]
  · intro name vals dfm lens hne hfmt hniso hn1
    refine main true '-' (Or.inl rfl) name vals dfm lens hne hfmt hniso "DD-MM-YYYY" ?_
    intro h1
    unfold dtfmRest
    rw [if_neg (by rw [hn1]; simp), if_pos (List.all_eq_true.mpr hfmt)]
  · intro name vals dfm lens hne hfmt hniso hn1 hn2
    refine main false '/' (Or.inr rfl) name vals dfm lens hne hfmt hniso "MM/DD/YYYY" ?_
    intro h1
    unfold dtfmRest
    rw [if_neg (by rw [hn1]; simp), if_neg (by rw [hn2]; simp),
      if_pos (List.all_eq_true.mpr hfmt)]
  · intro name vals dfm lens hne hfmt hniso hn1 hn2 hn3
    refine main true '/' (Or.inr rfl) name vals dfm lens hne hfmt hniso "DD/MM/YYYY" ?_
    intro h1
    unfold dtfmRest
    rw [if_neg (by rw [hn1]; simp), if_neg (by rw [hn2]; simp),
      if_neg (by rw [hn3]; simp), if_pos (List.all_eq_true.mpr hfmt)]

/-- Witness for C4: the first and fourth formats at concrete columns. -/
theorem claim4_informational_formats_witness :
    (infer_datetime_and_format "d" (["01-02-2022"].map Value.str) [] =
      (false, [("d", "MM-DD-YYYY")]) ∧
     infer_column "d" (["01-02-2022"].map Value.str) [] [] =
      .ok (some "string", [("d", "MM-DD-YYYY")], [("d", 10)])) ∧
    (infer_datetime_and_format "e" (["13/12/2022"].map Value.str) [] =
      (false, [("e", "DD/MM/YYYY")]) ∧
     infer_column "e" (["13/12/2022"].map Value.str) [] [] =
      .ok (some "string", [("e", "DD/MM/YYYY")], [("e", 10)])) :=
  ⟨claim4_informational_formats.1 "d" ["01-02-2022"] [] [] (by decide) (by decide) (by decide),
   claim4_informational_formats.2.2.2 "e" ["13/12/2022"] [] [] (by decide) (by decide)
     (by decide) (by decide) (by decide) (by decide)⟩

/-- C6: on columns without list-valued cells (which `infer_column` diverts
before this check), the boolean check passes exactly when, after treating
empty strings as missing, some value is non-missing and every value is
boolean-like or missing; consequently `["true","FALSE","True"]` is typed
`boolean` and `["","",""]` falls through to `string`. -/
theorem claim6_boolean_check :
    (∀ cells : List Value, (∀ v ∈ cells, v.isList = false) →
      (infer_boolean cells = true ↔
        ((∃ v ∈ cells, emptyToNan v ≠ Value.nan) ∧
         (∀ v ∈ cells, is_boolean_value v = true ∨ emptyToNan v = Value.nan)))) ∧
    infer_column "b" [Value.str "true", Value.str "FALSE", Value.str "True"] [] [] =
      .ok (some "boolean", [], [("b", 5)]) ∧
    infer_column "e" [Value.str "", Value.str "", Value.str ""] [] [] =
      .ok (some "string", [], [("e", 0)]) := by
  refine ⟨?_, rfl, rfl⟩
  intro cells hnl
  constructor
  · intro h
    rcases hul : uniqueList (cells.map emptyToNan) with _ | ⟨u0, urest⟩
    · simp only [infer_boolean, hul] at h
      exact absurd h (by simp)
    · simp only [infer_boolean, hul] at h
      by_cases hcond : (urest.isEmpty && isna u0) = true
      · rw [if_pos hcond] at h
        exact absurd h (by simp)
      · rw [if_neg hcond] at h
        have hall := List.all_eq_true.mp h
        have hmem_cells : ∀ x ∈ u0 :: urest, ∃ v ∈ cells, emptyToNan v = x := by
          intro x hx
          have : x ∈ cells.map emptyToNan := mem_of_uniqueList _ x (hul ▸ hx)
          rcases List.mem_map.mp this with ⟨v, hv, he⟩
          exact ⟨v, hv, he⟩
        constructor
        · rw [Bool.and_eq_true] at hcond
          by_cases hna0 : isna u0 = true
          · have hur : urest.isEmpty ≠ true := fun he => hcond ⟨he, hna0⟩
            obtain ⟨u1, ur2, rfl⟩ : ∃ u1 ur2, urest = u1 :: ur2 := by
              cases urest with
              | nil => exact absurd rfl hur
              | cons x y => exact ⟨x, y, rfl⟩
            have hnd := uniqueList_nodup (cells.map emptyToNan)
            rw [hul] at hnd
            have hne01 : u0 ≠ u1 := by
              intro e
              exact (List.nodup_cons.mp hnd).1 (e ▸ List.mem_cons_self _ _)
            obtain ⟨v, hv, he⟩ := hmem_cells u1 (by simp)
            refine ⟨v, hv, ?_⟩
            rw [he]
            intro e
            exact hne01 (((isna_iff u0).mp hna0).trans e.symm)
          · obtain ⟨v, hv, he⟩ := hmem_cells u0 (by simp)
            refine ⟨v, hv, ?_⟩
            rw [he]
            intro e
            exact hna0 ((isna_iff u0).mpr e)
        · intro v hv
          by_cases he : emptyToNan v = Value.nan
          · exact Or.inr he
          · left
            have hx : emptyToNan v ∈ uniqueList (cells.map emptyToNan) :=
              mem_uniqueList _ _ (List.mem_map_of_mem emptyToNan hv)
            rw [hul] at hx
            have := hall _ hx
            rw [Bool.or_eq_true] at this
            rcases this with hb | hna
            · have hvs : emptyToNan v = v := by
                by_cases hvx : v = Value.str ""
                · subst hvx
                  exact absurd (by rfl) he
                · exact emptyToNan_eq_self v hvx
              rw [hvs] at hb
              exact hb
            · exact absurd ((isna_iff _).mp hna) he
  · rintro ⟨⟨v0, hv0, hv0n⟩, hall⟩
    have hv0u : emptyToNan v0 ∈ uniqueList (cells.map emptyToNan) :=
      mem_uniqueList _ _ (List.mem_map_of_mem emptyToNan hv0)
    rcases hul : uniqueList (cells.map emptyToNan) with _ | ⟨u0, urest⟩
    · rw [hul] at hv0u; exact absurd hv0u (by simp)
    · simp only [infer_boolean, hul]
      rw [hul] at hv0u
      have hcond : (urest.isEmpty && isna u0) ≠ true := by
        intro hc
        rw [Bool.and_eq_true] at hc
        have hur : urest = [] := List.isEmpty_iff.mp hc.1
        subst hur
        have : emptyToNan v0 = u0 := by simpa using hv0u
        exact hv0n (this ▸ (isna_iff u0).mp hc.2)
      rw [if_neg hcond]
      rw [List.all_eq_true]
      intro x hx
      have hxm : x ∈ cells.map emptyToNan := mem_of_uniqueList _ x (hul ▸ hx)
      rcases List.mem_map.mp hxm with ⟨v, hv, rfl⟩
      rcases hall v hv with hb | hna
      · have hvne : v ≠ Value.str "" := by
          intro e
          rw [e] at hb
          simp [is_boolean_value, pyLower] at hb
        rw [emptyToNan_eq_self v hvne]
        rw [Bool.or_eq_true]
        exact Or.inl hb
      · rw [hna]
        rfl

/-- Witness for C6: the characterization applied to the claim's concrete
boolean column. -/
theorem claim6_boolean_check_witness :
    infer_boolean [Value.str "true", Value.str "FALSE", Value.str "True"] = true :=
  (claim6_boolean_check.1 [Value.str "true", Value.str "FALSE", Value.str "True"]
      (by decide)).mpr (by decide)

/-- C1 counterexample: on the batch `[{'d': '01-02-2022'}]` the returned
date format map has an entry for column `d` (label `MM-DD-YYYY`, recorded by
the informational branch of the resolver), yet that column's inferred type
is `string`, not `date-time` — refuting the claimed "iff". -/
theorem claim1_counterexample :
    generate_schema [[("d", Value.str "01-02-2022")]] true =
      .ok ([("d", Json.obj [("type", Json.arr [Json.str "null", Json.str "string"]),
            ("maxLength", Json.nat 10)])],
           [("d", "MM-DD-YYYY")]) ∧
    infer_column "d" [Value.str "01-02-2022"] [] [] =
      .ok (some "string", [("d", "MM-DD-YYYY")], [("d", 10)]) :=
  ⟨rfl, rfl⟩

/-- C1 as amended: the date format map contains an entry for every column
whose inferred type is `date-time`; the converse direction fails (columns
matching the four informational formats also receive entries while typed
`string` or `boolean`). -/
theorem claim1_datetime_entry (samples : List Row) (flag : Bool)
    (sch : List (String × Json)) (dfm : List (String × String)) (name : String)
    (dfmX : List (String × String)) (lensX : List (String × Nat))
    (h : generate_schema samples flag = .ok (sch, dfm))
    (hmem : name ∈ columnNames samples)
    (hic : infer_column name (getColumn samples name) [] [] =
      .ok (some "date-time", dfmX, lensX)) :
    ∃ lbl, dictLookup name dfm = some lbl := by
  obtain ⟨t, o, L, hdt, _, heq, hdfm, _⟩ := generate_schema_spec samples flag sch dfm name h hmem
  have ht : t = some "date-time" := by
    have h1 := heq ([] : List (String × String)) ([] : List (String × Nat))
    rw [hic] at h1
    simp only [Except.ok.injEq, Prod.mk.injEq] at h1
    exact h1.1.symm
  obtain ⟨l, hl⟩ := hdt ht
  exact ⟨l, by rw [hdfm, hl]⟩

/-- Witness for C1's amended claim at `[{'d': '2022-01-02'}]`. -/
theorem claim1_datetime_entry_witness :
    ∃ lbl, dictLookup "d" [("d", "YYYY-MM-DD")] = some lbl :=
  claim1_datetime_entry [[("d", Value.str "2022-01-02")]] true
    [("d", Json.obj [("type", Json.arr [Json.str "null", Json.str "string"]),
      ("format", Json.str "date-time"), ("maxLength", Json.nat 10)])]
    [("d", "YYYY-MM-DD")] "d" [("d", "YYYY-MM-DD")] [("d", 10)]
    rfl (by decide) rfl

/-- C8: any column containing a list-valued cell is classified `list` and is
excluded both from the schema returned by `generate_schema` and from the
returned date format map, regardless of its other cells. -/
theorem claim8_list_excluded (samples : List Row) (flag : Bool)
    (sch : List (String × Json)) (dfm : List (String × String)) (name : String)
    (h : generate_schema samples flag = .ok (sch, dfm))
    (hmem : name ∈ columnNames samples)
    (hl : (getColumn samples name).any Value.isList = true) :
    dictLookup name sch = Option.none ∧ dictLookup name dfm = Option.none ∧
    (∀ dfmb lensb, infer_column name (getColumn samples name) dfmb lensb =
      .ok (some "list", dfmb, dictInsert name (maxLen (getColumn samples name)) lensb)) := by
  have hicl := infer_column_list name (getColumn samples name) hl
  obtain ⟨t, o, L, _, hlist, heq, hdfm, hsch⟩ :=
    generate_schema_spec samples flag sch dfm name h hmem
  have ht : t = some "list" := by
    have h1 := heq ([] : List (String × String)) ([] : List (String × Nat))
    rw [hicl [] []] at h1
    simp only [Except.ok.injEq, Prod.mk.injEq] at h1
    exact h1.1.symm
  have ho : o = Option.none := hlist ht
  refine ⟨?_, ?_, hicl⟩
  · rw [hsch, if_pos ht]
  · rw [hdfm, ho]

/-- Witness for C8 at a batch whose row has one extra unnamed field. -/
theorem claim8_list_excluded_witness :
    dictLookup "l" [("k", Json.obj [("type", Json.arr [Json.str "null", Json.str "string"]),
        ("maxLength", Json.nat 1)])] = Option.none ∧
    dictLookup "l" ([] : List (String × String)) = Option.none ∧
    (∀ dfmb lensb, infer_column "l" (getColumn [[("l", Value.vlist ["a", "b"]), ("k", Value.str "x")]] "l") dfmb lensb =
      .ok (some "list", dfmb, dictInsert "l" (maxLen (getColumn [[("l", Value.vlist ["a", "b"]), ("k", Value.str "x")]] "l")) lensb)) :=
  claim8_list_excluded [[("l", Value.vlist ["a", "b"]), ("k", Value.str "x")]] true
    [("k", Json.obj [("type", Json.arr [Json.str "null", Json.str "string"]),
      ("maxLength", Json.nat 1)])]
    [] "l" rfl (by decide) (by decide)

/-- C10: a non-all-null column whose dtype is neither `object` nor one of
`int32`/`int64`/`float32` (for example `bool` or `float64`) gets no type tag
(`None`) from `infer_column`, and `generate_schema` then emits the schema
fragment `{'type': ['null', None, 'string']}` for it. -/
theorem claim10_unhandled_dtype :
    (∀ (name : String) (cells : List Value) (dfm : List (String × String))
        (lens : List (String × Nat)),
      isnullAll cells = false →
      dtypeName cells ≠ "object" → dtypeName cells ≠ "int32" →
      dtypeName cells ≠ "int64" → dtypeName cells ≠ "float32" →
      infer_column name cells dfm lens =
        .ok (Option.none, dfm, dictInsert name (maxLen cells) lens)) ∧
    (∀ (samples : List Row) (sch : List (String × Json)) (dfm : List (String × String))
        (name : String),
      generate_schema samples false = .ok (sch, dfm) →
      name ∈ columnNames samples →
      isnullAll (getColumn samples name) = false →
      dtypeName (getColumn samples name) ≠ "object" →
      dtypeName (getColumn samples name) ≠ "int32" →
      dtypeName (getColumn samples name) ≠ "int64" →
      dtypeName (getColumn samples name) ≠ "float32" →
      dictLookup name sch =
        some (Json.obj [("type", Json.arr [Json.str "null", Json.jnull, Json.str "string"])])) := by
  have hA : ∀ (name : String) (cells : List Value) (dfm : List (String × String))
      (lens : List (String × Nat)),
      isnullAll cells = false →
      dtypeName cells ≠ "object" → dtypeName cells ≠ "int32" →
      dtypeName cells ≠ "int64" → dtypeName cells ≠ "float32" →
      infer_column name cells dfm lens =
        .ok (Option.none, dfm, dictInsert name (maxLen cells) lens) := by
    intro name cells dfm lens hnull hobj h1 h2 h3
    have hnot : ¬(dtypeName cells = "int32" ∨ dtypeName cells = "int64" ∨
        dtypeName cells = "float32") := by
      intro hor
      rcases hor with hc | hc | hc
      · exact h1 hc
      · exact h2 hc
      · exact h3 hc
    simp only [infer_column, hnull, Bool.false_eq_true, if_false]
    rw [if_neg hobj, if_neg hnot]
  refine ⟨hA, ?_⟩
  intro samples sch dfm name h hmem hnull hobj h1 h2 h3
  obtain ⟨t, o, L, _, _, heq, _, hsch⟩ :=
    generate_schema_spec samples false sch dfm name h hmem
  have ht : t = Option.none := by
    have he := heq ([] : List (String × String)) ([] : List (String × Nat))
    rw [hA name (getColumn samples name) [] [] hnull hobj h1 h2 h3] at he
    simp only [Except.ok.injEq, Prod.mk.injEq] at he
    exact he.1.symm
  rw [hsch, ht]
  rw [if_neg (by simp)]
  rfl

/-- Witness for C10 at a boolean column (dtype `bool`) inside a batch. -/
theorem claim10_unhandled_dtype_witness :
    infer_column "b" [Value.pybool true] [] [] = .ok (Option.none, [], [("b", 4)]) ∧
    dictLookup "b" [("b", Json.obj [("type", Json.arr [Json.str "null", Json.jnull, Json.str "string"])])] =
      some (Json.obj [("type", Json.arr [Json.str "null", Json.jnull, Json.str "string"])]) :=
  ⟨claim10_unhandled_dtype.1 "b" [Value.pybool true] [] [] (by decide) (by decide)
      (by decide) (by decide) (by decide),
   claim10_unhandled_dtype.2 [[("b", Value.pybool true)]]
    [("b", Json.obj [("type", Json.arr [Json.str "null", Json.jnull, Json.str "string"])])]
    [] "b" rfl (by decide) (by decide) (by decide) (by decide) (by decide) (by decide)⟩

end Conversion
